import Mathlib

/-!
Verification of the math-practice trainer's problem-generation engines and
session state machines (percentage, ratio-comparison, divisibility/remainder,
addition-chain, and the simple arithmetic mode), shallowly embedded from the
TypeScript source.

Modelling conventions:
* JavaScript numbers are embedded as `ℕ`/`ℤ` where the source only ever holds
  integers, and as `ℚ` where the source performs division; `Math.round` is
  embedded as `⌊x + 1/2⌋` (`jsRound`), which agrees with JavaScript's
  round-half-towards-positive-infinity semantics on all rationals.
* `Math.random()`-derived draws are made explicit: each generator takes a
  stream `ρ : ℕ → ℕ` of raw draws, and `randomInt lo hi r = lo + r % (hi-lo+1)`
  reproduces `Math.floor(Math.random() * (max - min + 1)) + min` (the set of
  reachable values is exactly `[lo, hi]` when `lo ≤ hi`).  Boolean coin flips
  (`Math.random() < p` / `> 0.5`) are explicit `Bool` inputs or streams.
  Each call site of the source's RNG is given its own fixed stream position,
  so a stream assigns one raw draw to every random call the code can make.
* `Date.now()` timestamps are explicit `now : ℚ` inputs.
* Locale-dependent thousands separators (`toLocaleString`) are presentational
  only and rendered via `toString`.
-/

/-- The TypeScript difficulty union type `1 | 2 | 3 | 4 | 5`, shared by every
engine (`ChainDifficulty`, `DivisibilityDifficulty`, `PercentageDifficulty`,
`RatioDifficulty`, `Difficulty`). -/
inductive Difficulty where
  | d1 | d2 | d3 | d4 | d5
deriving DecidableEq, Repr

/-- Numeric value of a difficulty level, for the source's `difficulty >= 4`
and `difficulty < 3` comparisons. -/
def Difficulty.toNat : Difficulty → ℕ
  | .d1 => 1
  | .d2 => 2
  | .d3 => 3
  | .d4 => 4
  | .d5 => 5

/-- `randomInt(min, max)` / `randomInRange(min, max)`:
`Math.floor(Math.random() * (max - min + 1)) + min`, with the underlying
random draw made explicit as `r`. -/
def randomInt (lo hi r : ℕ) : ℕ :=
  lo + r % (hi - lo + 1)

/-- JavaScript's `Math.round`: round half towards positive infinity.
(ECMAScript specifies `Math.round` as the exact nearest integer of the
argument's value, ties towards `+∞` — not as a double addition of 0.5.) -/
def jsRound (q : ℚ) : ℤ :=
  ⌊q + 1/2⌋

/-- Floor of the base-2 logarithm of a natural number, by repeated halving
(`natLog2Aux fuel n` is exact whenever `n ≤ fuel`; `natLog2 n` uses `n` as
fuel, which always suffices). -/
def natLog2Aux : ℕ → ℕ → ℕ
  | 0, _ => 0
  | fuel + 1, n => if n ≤ 1 then 0 else natLog2Aux fuel (n / 2) + 1

/-- `natLog2 n = ⌊log₂ n⌋` for `n ≥ 1`. -/
def natLog2 (n : ℕ) : ℕ :=
  natLog2Aux n n

/-- Round a rational to the nearest integer, ties to even — the rounding
rule of IEEE-754 arithmetic. -/
def roundHalfEven (q : ℚ) : ℤ :=
  let f := ⌊q⌋
  let r := q - (f : ℚ)
  if r < 1/2 then f
  else if 1/2 < r then f + 1
  else if f % 2 = 0 then f else f + 1

/-- The binade exponent of a positive rational: the unique `k` with
`2^k ≤ q < 2^(k+1)` (see `ratBinade_spec`). -/
def ratBinade (q : ℚ) : ℤ :=
  if 1 ≤ q then (natLog2 ⌊q⌋.toNat : ℤ)
  else
    let j := natLog2 ⌊1 / q⌋.toNat
    if (2 : ℚ) ^ (-(j : ℤ)) ≤ q then -(j : ℤ) else -(j : ℤ) - 1

/-- Round a positive rational to the IEEE-754 binary64 grid: 53 significant
bits, round to nearest, ties to even. -/
def fl64Pos (q : ℚ) : ℚ :=
  let k := ratBinade q
  (roundHalfEven (q * 2 ^ (52 - k)) : ℚ) * 2 ^ (k - 52)

/-- The IEEE-754 binary64 value of a rational (round to nearest, ties to
even), for magnitudes in the normal range — exactly the rounding JavaScript
number arithmetic performs after each operation.  (Overflow and subnormals
are outside the magnitudes this program produces and are not modelled.) -/
def fl64 (q : ℚ) : ℚ :=
  if q = 0 then 0
  else if 0 < q then fl64Pos q
  else -fl64Pos (-q)

/-! ## Divisibility & Remainder engine (`divisibilityEngine`) -/

/-- `DivisibilityProblem` from the divisibility engine.  `negativeRemainder`
is an integer (it is `remainder − divisor < 0` for non-exact problems). -/
structure DivisibilityProblem where
  dividend : ℕ
  divisor : ℕ
  quotient : ℕ
  remainder : ℕ
  negativeRemainder : ℤ
  isDivisible : Bool
  display : String
  difficulty : Difficulty
deriving DecidableEq, Repr

/-- Per-difficulty ranges of the divisibility engine (`difficultyRanges`). -/
structure DivRanges where
  dividendMin : ℕ
  dividendMax : ℕ
  divisorMin : ℕ
  divisorMax : ℕ
deriving DecidableEq, Repr

/-- The divisibility engine's `difficultyRanges` table. -/
def divisibilityRanges : Difficulty → DivRanges
  | .d1 => ⟨10, 50, 2, 5⟩
  | .d2 => ⟨20, 99, 2, 9⟩
  | .d3 => ⟨50, 200, 3, 12⟩
  | .d4 => ⟨100, 500, 5, 25⟩
  | .d5 => ⟨200, 999, 7, 50⟩

/-- `generateExactDivisibilityProblem(difficulty)`; `r0` and `r1` are the two
random draws (divisor, quotient).  `Math.ceil(min / divisor)` on naturals is
`(min + divisor - 1) / divisor`, and `Math.floor(max / divisor)` is natural
division. -/
def generateExactDivisibilityProblem (difficulty : Difficulty) (r0 r1 : ℕ) :
    DivisibilityProblem :=
  let config := divisibilityRanges difficulty
  let divisor := randomInt config.divisorMin config.divisorMax r0
  let minQuotient := (config.dividendMin + divisor - 1) / divisor
  let maxQuotient := config.dividendMax / divisor
  let quotient := randomInt (max 2 minQuotient) (max 3 maxQuotient) r1
  let dividend := quotient * divisor
  { dividend := dividend
    divisor := divisor
    quotient := quotient
    remainder := 0
    negativeRemainder := 0
    isDivisible := true
    display := toString dividend ++ " ÷ " ++ toString divisor
    difficulty := difficulty }

/-- The `do { dividend = randomInt(min, max); attempts++ } while (dividend %
divisor === 0 && attempts < 50)` loop of `generateRemainderProblem`: draw at
stream position `i`; `triesLeft` counts the retries still allowed by the
`attempts < 50` guard (49 on entry, since the first draw is attempt 1). -/
def dividendLoop (lo hi divisor : ℕ) (ρ : ℕ → ℕ) : ℕ → ℕ → ℕ
  | i, 0 => randomInt lo hi (ρ i)
  | i, triesLeft + 1 =>
    let dividend := randomInt lo hi (ρ i)
    if dividend % divisor = 0 then dividendLoop lo hi divisor ρ (i + 1) triesLeft
    else dividend

/-- The forced adjustment after the rejection loop of
`generateRemainderProblem`: `if (dividend % divisor === 0) dividend +=
randomInt(1, divisor - 1)`. -/
def forcedAdjust (divisor sampled r : ℕ) : ℕ :=
  if sampled % divisor = 0 then sampled + randomInt 1 (divisor - 1) r
  else sampled

/-- `generateRemainderProblem(difficulty)`.  Stream layout: `ρ 0` is the
divisor draw, `ρ 1 .. ρ 50` feed the dividend rejection loop, and `ρ 51` is
the forced-adjustment draw used when the loop exhausts its 50 attempts on a
still-divisible dividend. -/
def generateRemainderProblem (difficulty : Difficulty) (ρ : ℕ → ℕ) :
    DivisibilityProblem :=
  let config := divisibilityRanges difficulty
  let divisor := randomInt config.divisorMin config.divisorMax (ρ 0)
  let sampled := dividendLoop config.dividendMin config.dividendMax divisor
    (fun i => ρ (1 + i)) 0 49
  let dividend := forcedAdjust divisor sampled (ρ 51)
  let quotient := dividend / divisor
  let remainder := dividend % divisor
  let negativeRemainder : ℤ :=
    if 0 < remainder then (remainder : ℤ) - (divisor : ℤ) else 0
  { dividend := dividend
    divisor := divisor
    quotient := quotient
    remainder := remainder
    negativeRemainder := negativeRemainder
    isDivisible := false
    display := toString dividend ++ " ÷ " ++ toString divisor
    difficulty := difficulty }

/-- `generateDivisibilityProblem(config)`.  Only `difficulty` and
`includeExactDivisibility` are read from the config; `shouldBeExactCoin`
models the `Math.random() < 0.3` coin. -/
def generateDivisibilityProblem (difficulty : Difficulty)
    (includeExactDivisibility : Bool) (shouldBeExactCoin : Bool) (ρ : ℕ → ℕ) :
    DivisibilityProblem :=
  let shouldBeExact := includeExactDivisibility && shouldBeExactCoin
  if shouldBeExact then generateExactDivisibilityProblem difficulty (ρ 0) (ρ 1)
  else generateRemainderProblem difficulty ρ

/-- `generateDefaultProblem(difficulty)`: default config has
`includeExactDivisibility: true`. -/
def generateDefaultProblem (difficulty : Difficulty) (coin : Bool) (ρ : ℕ → ℕ) :
    DivisibilityProblem :=
  generateDivisibilityProblem difficulty true coin ρ

/-- `validateDivisibilityAnswer(problem, userSaidDivisible)`. -/
def validateDivisibilityAnswer (problem : DivisibilityProblem)
    (userSaidDivisible : Bool) : Bool :=
  userSaidDivisible == problem.isDivisible

/-- `validateRemainderAnswer(problem, userRemainder, acceptNegative)`: the
user's remainder may be negative, hence `ℤ`. -/
def validateRemainderAnswer (problem : DivisibilityProblem)
    (userRemainder : ℤ) (acceptNegative : Bool) : Bool :=
  if problem.isDivisible && userRemainder == 0 then true
  else if userRemainder == (problem.remainder : ℤ) then true
  else if acceptNegative && userRemainder == problem.negativeRemainder then true
  else false

/-- The invariant claimed for generated divisibility problems. -/
def DivProblemInvariant (p : DivisibilityProblem) : Prop :=
  p.dividend = p.divisor * p.quotient + p.remainder ∧
  p.remainder < p.divisor ∧
  p.negativeRemainder = (if 0 < p.remainder then (p.remainder : ℤ) - (p.divisor : ℤ) else 0) ∧
  (p.isDivisible = true ↔ p.remainder = 0)

/-- The random stream realizing the end-to-end example problem `87 ÷ 5` at
difficulty 2: divisor draw `3` gives `randomInt 2 9 3 = 5`, dividend draw `67`
gives `randomInt 20 99 67 = 87` (not divisible by 5, so the rejection loop
accepts immediately). -/
def problem87Stream : ℕ → ℕ :=
  fun i => if i = 0 then 3 else 67

/-! ## Percentage engine (`percentageEngine`) -/

/-- `PercentageProblem`: `answer` is the percentage rounded to the required
number of decimal places. -/
structure PercentageProblem where
  numerator : ℕ
  denominator : ℕ
  question : String
  answer : ℚ
  difficulty : Difficulty
  decimalPlaces : ℕ
deriving DecidableEq, Repr

/-- One row of the percentage engine's `DIFFICULTY_CONFIG`. -/
structure PercentageConfig where
  numLo : ℕ
  numHi : ℕ
  denLo : ℕ
  denHi : ℕ
  allowOver100 : Bool
  decimalPlaces : ℕ
deriving DecidableEq, Repr

/-- The percentage engine's `DIFFICULTY_CONFIG` table. -/
def percentageConfig : Difficulty → PercentageConfig
  | .d1 => ⟨10, 45, 50, 100, false, 1⟩
  | .d2 => ⟨15, 70, 40, 120, false, 1⟩
  | .d3 => ⟨20, 90, 50, 150, false, 2⟩
  | .d4 => ⟨30, 180, 60, 200, true, 2⟩
  | .d5 => ⟨50, 300, 70, 250, true, 2⟩

/-- `calculatePercentage(numerator, denominator, decimalPlaces)`:
`Math.round(percentage * multiplier) / multiplier` with
`percentage = numerator / denominator * 100`. -/
def calculatePercentage (numerator denominator : ℕ) (decimalPlaces : ℕ) : ℚ :=
  let percentage : ℚ := (numerator : ℚ) / (denominator : ℚ) * 100
  let multiplier : ℚ := 10 ^ decimalPlaces
  (jsRound (percentage * multiplier) : ℚ) / multiplier

/-- `isPercentageCorrect(userAnswer, correctAnswer, decimalPlaces)`:
tolerance `0.05` for 1-decimal problems, `0.005` otherwise, boundary
inclusive. -/
def isPercentageCorrect (userAnswer correctAnswer : ℚ) (decimalPlaces : ℕ) :
    Bool :=
  let tolerance : ℚ := if decimalPlaces = 1 then 1/20 else 1/200
  decide (|userAnswer - correctAnswer| ≤ tolerance)

/-- One iteration body of `generatePercentageProblem`'s rejection loop:
sample the denominator (draw `rDen`), then the numerator (draw `rNum`, capped
below the denominator when `allowOver100` is false). -/
def percentageSample (difficulty : Difficulty) (rDen rNum : ℕ) : ℕ × ℕ :=
  let config := percentageConfig difficulty
  let denominator := randomInt config.denLo config.denHi rDen
  let numerator :=
    if config.allowOver100 then randomInt config.numLo config.numHi rNum
    else randomInt config.numLo (min config.numHi (denominator - 1)) rNum
  (numerator, denominator)

/-- The rejection predicate of `generatePercentageProblem`'s `do/while`
condition.  The source also rejects `NaN`/non-finite percentages; those
cannot arise in the exact-rational embedding (the sampled denominator is
always positive), so they are omitted. -/
def percentageRejected (difficulty : Difficulty) (percentage : ℚ) : Bool :=
  percentage == 50 || percentage == 100 || percentage == 25 || percentage == 75 ||
  (decide (difficulty.toNat < 3) && decide (percentage < 15))

/-- The `do { ... } while (...)` rejection loop of
`generatePercentageProblem`, with an explicit iteration budget `fuel`
(the source loop has no retry cap, so no finite fuel is guaranteed to
suffice); iteration `i` consumes draws `ρ (2*i)` and `ρ (2*i+1)`.  `none`
means the loop is still running after `fuel` iterations. -/
def percentageLoop (difficulty : Difficulty) (ρ : ℕ → ℕ) :
    ℕ → ℕ → Option (ℕ × ℕ × ℚ)
  | _, 0 => none
  | i, fuel + 1 =>
    let nd := percentageSample difficulty (ρ (2 * i)) (ρ (2 * i + 1))
    let percentage :=
      calculatePercentage nd.1 nd.2 (percentageConfig difficulty).decimalPlaces
    if percentageRejected difficulty percentage then
      percentageLoop difficulty ρ (i + 1) fuel
    else some (nd.1, nd.2, percentage)

/-- `generatePercentageProblem(difficulty)`, fuelled: returns `none` when the
rejection loop has not produced an accepted sample within `fuel`
iterations. -/
def generatePercentageProblem (difficulty : Difficulty) (ρ : ℕ → ℕ)
    (fuel : ℕ) : Option PercentageProblem :=
  match percentageLoop difficulty ρ 0 fuel with
  | none => none
  | some (n, d, percentage) =>
    some { numerator := n
           denominator := d
           question := toString n ++ "/" ++ toString d
           answer := percentage
           difficulty := difficulty
           decimalPlaces := (percentageConfig difficulty).decimalPlaces }

/-- An adversarial random stream for the percentage engine at difficulty 1:
every iteration draws denominator `randomInt 50 100 0 = 50` and numerator
`randomInt 10 45 15 = 25`, whose percentage is exactly 50 and is therefore
rejected forever. -/
def percentageBadStream : ℕ → ℕ :=
  fun i => if i % 2 = 0 then 0 else 15

/-- There is a random stream on which `generatePercentageProblem`'s rejection
loop never exits, no matter how many iterations it is allowed: the loop has
no retry bound and no fallback. -/
def PercentageLoopUnbounded : Prop :=
  ∀ fuel : ℕ, generatePercentageProblem Difficulty.d1 percentageBadStream fuel = none

/-! ## Ratio comparison engine (`ratioEngine`) -/

/-- A `Ratio`.  `numerator`/`denominator` are integers (`ℤ`: the derived
`num2 = Math.round(...)` is an arbitrary integer before the positivity
guard); `value` is the exact quotient. -/
structure Ratio where
  numerator : ℤ
  denominator : ℤ
  value : ℚ
  display : String
deriving DecidableEq, Repr

/-- `createRatio(numerator, denominator)`. -/
def createRatio (numerator denominator : ℤ) : Ratio :=
  { numerator := numerator
    denominator := denominator
    value := (numerator : ℚ) / (denominator : ℚ)
    display := toString numerator ++ "/" ++ toString denominator }

/-- The `"A" | "B"` answer union type. -/
inductive RatioAnswer where
  | A | B
deriving DecidableEq, Repr

/-- `RatioComparisonProblem`. -/
structure RatioComparisonProblem where
  ratioA : Ratio
  ratioB : Ratio
  correctAnswer : RatioAnswer
  difficulty : Difficulty
  percentageDiff : ℚ
deriving DecidableEq, Repr

/-- One row of the ratio engine's `DIFFICULTY_CONFIG`.  The difference bands
are stored as `minDiffPercent × 10` / `maxDiffPercent × 10` (all table
entries are multiples of 0.1, e.g. difficulty 5 has `minDiffPercent = 0.5`),
which is also exactly the integer pair the source feeds to
`randomInRange(minDiffPercent * 10, maxDiffPercent * 10)`. -/
structure RatioConfig where
  numLo : ℕ
  numHi : ℕ
  denLo : ℕ
  denHi : ℕ
  minDiff10 : ℕ
  maxDiff10 : ℕ
deriving DecidableEq, Repr

/-- `minDiffPercent` of a config row. -/
def RatioConfig.minDiffPercent (c : RatioConfig) : ℚ :=
  (c.minDiff10 : ℚ) / 10

/-- `maxDiffPercent` of a config row. -/
def RatioConfig.maxDiffPercent (c : RatioConfig) : ℚ :=
  (c.maxDiff10 : ℚ) / 10

/-- The ratio engine's `DIFFICULTY_CONFIG` table. -/
def ratioConfig : Difficulty → RatioConfig
  | .d1 => ⟨10, 50, 20, 80, 150, 400⟩
  | .d2 => ⟨15, 80, 30, 120, 80, 150⟩
  | .d3 => ⟨20, 120, 40, 180, 40, 80⟩
  | .d4 => ⟨50, 200, 80, 250, 20, 40⟩
  | .d5 => ⟨100, 300, 120, 350, 5, 20⟩

/-- `getPercentageDifference(ratio1, ratio2) = (larger − smaller) / smaller ×
100`. -/
def getPercentageDifference (ratio1 ratio2 : Ratio) : ℚ :=
  let larger := max ratio1.value ratio2.value
  let smaller := min ratio1.value ratio2.value
  (larger - smaller) / smaller * 100

/-- One iteration body of `generateRatioComparison`'s rejection loop.
`rNum1`/`rDen1` draw ratio A.  For difficulty ≥ 4, `signCoin` models
`Math.random() > 0.5`, `r2` draws the target offset, `r3` draws `den2`, and
`r4`/`r5` draw the fresh fallback ratio used when the derived `num2` fails
the `num2 > 0 && num2 < den2 * 2` guard; for lower difficulties `r2`/`r3`
draw ratio B directly. -/
def ratioAttempt (difficulty : Difficulty)
    (rNum1 rDen1 r2 r3 r4 r5 : ℕ) (signCoin : Bool) : Ratio × Ratio :=
  let config := ratioConfig difficulty
  let num1 := randomInt config.numLo config.numHi rNum1
  let den1 := randomInt config.denLo config.denHi rDen1
  let ratioA := createRatio (num1 : ℤ) (den1 : ℤ)
  let ratioB :=
    if 4 ≤ difficulty.toNat then
      let basePercentage : ℚ := ((num1 : ℚ) / (den1 : ℚ)) * 100
      let targetPercentage : ℚ :=
        basePercentage +
          (if signCoin then 1 else -1) *
            ((randomInt config.minDiff10 config.maxDiff10 r2 : ℚ) / 10)
      let den2 := randomInt config.denLo config.denHi r3
      let num2 : ℤ := jsRound (targetPercentage / 100 * (den2 : ℚ))
      if 0 < num2 ∧ num2 < (den2 : ℤ) * 2 then createRatio num2 (den2 : ℤ)
      else
        createRatio (randomInt config.numLo config.numHi r4 : ℤ)
          (randomInt config.denLo config.denHi r5 : ℤ)
    else
      createRatio (randomInt config.numLo config.numHi r2 : ℤ)
        (randomInt config.denLo config.denHi r3 : ℤ)
  (ratioA, ratioB)

/-- The rejection condition of `generateRatioComparison`'s `do/while`: the
percentage difference is outside the band, or the two ratios are numerically
or textually identical. -/
def ratioBad (difficulty : Difficulty) (ratioA ratioB : Ratio) : Bool :=
  let config := ratioConfig difficulty
  let percentageDiff := getPercentageDifference ratioA ratioB
  decide (percentageDiff < config.minDiffPercent) ||
  decide (config.maxDiffPercent < percentageDiff) ||
  decide (ratioA.value = ratioB.value) ||
  decide (ratioA.display = ratioB.display)

/-- The bounded rejection loop of `generateRatioComparison`
(`attempts < maxAttempts = 100`).  `i` is the 0-based attempt index
(attempt `i` consumes draws `ρ (8*i) .. ρ (8*i+5)` and coin `σ i`);
`triesLeft` is the number of retries still allowed by the `attempts < 100`
guard (99 on entry).  Returns the final pair together with the final value
of `attempts = i + 1`. -/
def ratioLoopGo (difficulty : Difficulty) (ρ : ℕ → ℕ) (σ : ℕ → Bool) :
    ℕ → ℕ → Ratio × Ratio × ℕ
  | i, 0 =>
    let p := ratioAttempt difficulty (ρ (8 * i)) (ρ (8 * i + 1)) (ρ (8 * i + 2))
      (ρ (8 * i + 3)) (ρ (8 * i + 4)) (ρ (8 * i + 5)) (σ i)
    (p.1, p.2, i + 1)
  | i, triesLeft + 1 =>
    let p := ratioAttempt difficulty (ρ (8 * i)) (ρ (8 * i + 1)) (ρ (8 * i + 2))
      (ρ (8 * i + 3)) (ρ (8 * i + 4)) (ρ (8 * i + 5)) (σ i)
    if ratioBad difficulty p.1 p.2 then ratioLoopGo difficulty ρ σ (i + 1) triesLeft
    else (p.1, p.2, i + 1)

/-- The tail of `generateRatioComparison` after the loop/fallback has fixed
the pair: recompute `percentageDiff`, apply the 50% positional swap
(`swapCoin` models `Math.random() > 0.5`), and pick `correctAnswer` as
`ratioA.value > ratioB.value ? "A" : "B"`. -/
def ratioFinalize (difficulty : Difficulty) (pair : Ratio × Ratio)
    (swapCoin : Bool) : RatioComparisonProblem :=
  let percentageDiff := getPercentageDifference pair.1 pair.2
  let swapped := if swapCoin then (pair.2, pair.1) else pair
  let ratioA := swapped.1
  let ratioB := swapped.2
  let correctAnswer := if ratioA.value > ratioB.value then RatioAnswer.A else RatioAnswer.B
  { ratioA := ratioA
    ratioB := ratioB
    correctAnswer := correctAnswer
    difficulty := difficulty
    percentageDiff := (jsRound (percentageDiff * 100) : ℚ) / 100 }

/-- `generateRatioComparison(difficulty)`.  When the loop ends with
`attempts >= maxAttempts`, ratio B is replaced by the deterministic fallback
`createRatio(Math.round(ratioA.numerator * (1 + minDiffPercent/100)),
ratioA.denominator)`.  The fallback's `adjustment` and the product are
computed in IEEE-754 doubles, so each operation is rounded with `fl64`
(`minDiffPercent` itself — 15, 8, 4, 2 or 0.5 — is exactly representable);
at difficulty 5 this makes `1 + 0.5/100` round below `1.005`, which is what
produces the `Math.round(100 * adjustment) = 100` tie. -/
def generateRatioComparison (difficulty : Difficulty) (ρ : ℕ → ℕ)
    (σ : ℕ → Bool) (swapCoin : Bool) : RatioComparisonProblem :=
  let config := ratioConfig difficulty
  let r := ratioLoopGo difficulty ρ σ 0 99
  let attempts := r.2.2
  let pair :=
    if 100 ≤ attempts then
      let adjustment : ℚ := fl64 (1 + fl64 (config.minDiffPercent / 100))
      (r.1, createRatio (jsRound (fl64 ((r.1.numerator : ℚ) * adjustment)))
        r.1.denominator)
    else (r.1, r.2.1)
  ratioFinalize difficulty pair swapCoin

/-- A random stream driving `generateRatioComparison` at difficulty 5 into
attempt exhaustion with `ratioA = 100/350` on every attempt: each attempt
draws `num1 = randomInt 100 300 0 = 100`, `den1 = randomInt 120 350 230 =
350`, target-offset draw `randomInt 5 20 15 = 20` (offset 2.0), `den2 =
randomInt 120 350 0 = 120`, giving `num2 = 37` and a percentage difference
of `95/12 ≈ 7.9% > 2`, rejected on all 100 attempts. -/
def tieStream : ℕ → ℕ :=
  fun j =>
    if j % 8 = 0 then 0
    else if j % 8 = 1 then 230
    else if j % 8 = 2 then 15
    else 0

/-- The sign coins for the tie-exhibiting run (always `+1`). -/
def tieCoins : ℕ → Bool :=
  fun _ => true

/-! ## Addition-chain engine (`chainEngine`) -/

/-- `ChainStep`. -/
structure ChainStep where
  stepNumber : ℕ
  previousResult : ℕ
  addend : ℕ
  result : ℕ
  display : String
deriving DecidableEq, Repr

/-- `GeneratedChain`. -/
structure GeneratedChain where
  steps : List ChainStep
  totalLength : ℕ
  finalResult : ℕ
  difficulty : Difficulty
deriving DecidableEq, Repr

/-- One row of the chain engine's `difficultyRanges`: starting-number range
and the four addend-progression bands. -/
structure ChainRanges where
  startLo : ℕ
  startHi : ℕ
  band1Lo : ℕ
  band1Hi : ℕ
  band2Lo : ℕ
  band2Hi : ℕ
  band3Lo : ℕ
  band3Hi : ℕ
  band4Lo : ℕ
  band4Hi : ℕ
deriving DecidableEq, Repr

/-- The chain engine's `difficultyRanges` table. -/
def chainRanges : Difficulty → ChainRanges
  | .d1 => ⟨10, 50, 10, 30, 20, 50, 30, 70, 40, 99⟩
  | .d2 => ⟨20, 99, 20, 60, 50, 150, 100, 300, 200, 500⟩
  | .d3 => ⟨50, 200, 50, 150, 100, 400, 300, 700, 500, 999⟩
  | .d4 => ⟨100, 500, 100, 400, 300, 800, 500, 1500, 1000, 3000⟩
  | .d5 => ⟨200, 999, 200, 600, 500, 1500, 1000, 5000, 3000, 9999⟩

/-- `getAddendRange(stepNumber, difficulty)`. -/
def getAddendRange (stepNumber : ℕ) (difficulty : Difficulty) : ℕ × ℕ :=
  let ranges := chainRanges difficulty
  if stepNumber ≤ 5 then (ranges.band1Lo, ranges.band1Hi)
  else if stepNumber ≤ 10 then (ranges.band2Lo, ranges.band2Hi)
  else if stepNumber ≤ 15 then (ranges.band3Lo, ranges.band3Hi)
  else (ranges.band4Lo, ranges.band4Hi)

/-- The `for (let i = 2; i <= totalLength; i++)` loop of `generateChain`:
generates `n` further steps starting at step number `i` from running result
`currentResult` (step `i` draws its addend at stream position `ρ (i+1)`);
returns the steps together with the final running result. -/
def chainStepsGo (difficulty : Difficulty) (ρ : ℕ → ℕ) :
    ℕ → ℕ → ℕ → List ChainStep × ℕ
  | _, currentResult, 0 => ([], currentResult)
  | i, currentResult, n + 1 =>
    let range := getAddendRange i difficulty
    let addend := randomInt range.1 range.2 (ρ (i + 1))
    let step : ChainStep :=
      { stepNumber := i
        previousResult := currentResult
        addend := addend
        result := currentResult + addend
        display := toString currentResult ++ " + " ++ toString addend ++ " = ?" }
    let rest := chainStepsGo difficulty ρ (i + 1) (currentResult + addend) n
    (step :: rest.1, rest.2)

/-- `generateChain({minLength, maxLength, difficulty})`.  Stream layout:
`ρ 0` draws the total length, `ρ 1`/`ρ 2` the starting pair, and `ρ (i+1)`
the addend of step `i ≥ 2`. -/
def generateChain (minLength maxLength : ℕ) (difficulty : Difficulty)
    (ρ : ℕ → ℕ) : GeneratedChain :=
  let totalLength := randomInt minLength maxLength (ρ 0)
  let range := chainRanges difficulty
  let first := randomInt range.startLo range.startHi (ρ 1)
  let second := randomInt range.startLo range.startHi (ρ 2)
  let firstStep : ChainStep :=
    { stepNumber := 1
      previousResult := first
      addend := second
      result := first + second
      display := toString first ++ " + " ++ toString second ++ " = ?" }
  let rest := chainStepsGo difficulty ρ 2 (first + second) (totalLength - 1)
  { steps := firstStep :: rest.1
    totalLength := totalLength
    finalResult := rest.2
    difficulty := difficulty }

/-- `generateDefaultChain(difficulty)`: `minLength: 10, maxLength: 20`. -/
def generateDefaultChain (difficulty : Difficulty) (ρ : ℕ → ℕ) : GeneratedChain :=
  generateChain 10 20 difficulty ρ

/-- `validateStepAnswer(step, userAnswer)`. -/
def validateStepAnswer (step : ChainStep) (userAnswer : ℤ) : Bool :=
  userAnswer == (step.result : ℤ)

/-- `ChainStats`; the stored `accuracy` and `averageTimePerStep` fields are
the rounded values the source stores (`Math.round(accuracy)` and
`Math.round(avg * 10) / 10`). -/
structure ChainStats where
  totalSteps : ℕ
  correctSteps : ℕ
  accuracy : ℤ
  averageTimePerStep : ℚ
  completed : Bool
  finalScore : ℤ
deriving DecidableEq, Repr

/-- `calculateChainStats(totalSteps, correctSteps, totalTimeMs, completed)`. -/
def calculateChainStats (totalSteps correctSteps : ℕ) (totalTimeMs : ℚ)
    (completed : Bool) : ChainStats :=
  let accuracy : ℚ :=
    if 0 < totalSteps then ((correctSteps : ℚ) / (totalSteps : ℚ)) * 100 else 0
  let averageTimePerStep : ℚ :=
    if 0 < totalSteps then totalTimeMs / (totalSteps : ℚ) / 1000 else 0
  let basePoints : ℤ := (correctSteps : ℤ) * 10
  let accuracyBonus := jsRound (accuracy * 2)
  let speedBonus :=
    if averageTimePerStep < 5 then jsRound ((5 - averageTimePerStep) * 10) else 0
  let completionBonus : ℤ := if completed then 50 else 0
  { totalSteps := totalSteps
    correctSteps := correctSteps
    accuracy := jsRound accuracy
    averageTimePerStep := (jsRound (averageTimePerStep * 10) : ℚ) / 10
    completed := completed
    finalScore := basePoints + accuracyBonus + speedBonus + completionBonus }

/-- Steps of a list each satisfy `result = previousResult + addend`. -/
def StepsAdditive (l : List ChainStep) : Prop :=
  ∀ s ∈ l, s.result = s.previousResult + s.addend

/-- A list of chain steps is correctly linked starting from running result
`cur`: each step starts from the previous running result. -/
def Chained : ℕ → List ChainStep → Prop
  | _, [] => True
  | cur, s :: rest => s.previousResult = cur ∧ Chained s.result rest

/-- The invariant claimed for generated chains: length within the configured
bound, per-step addition correctness, and consecutive linking. -/
def ChainInvariant (c : GeneratedChain) (minLength maxLength : ℕ) : Prop :=
  minLength ≤ c.steps.length ∧ c.steps.length ≤ maxLength ∧
  StepsAdditive c.steps ∧
  (∀ i, (h : i + 1 < c.steps.length) →
    (c.steps.get ⟨i + 1, h⟩).previousResult =
      (c.steps.get ⟨i, Nat.lt_of_succ_lt h⟩).result)

/-! ## Simple math mode store (`store.ts`) -/

/-- The `GameMode` union type. -/
inductive GameMode where
  | addition | subtraction | percentage | ratio
deriving DecidableEq, Repr

/-- `GameStats` of the simple math store. -/
structure GameStats where
  totalQuestions : ℕ
  correctAnswers : ℕ
  currentStreak : ℕ
  bestStreak : ℕ
  averageTime : ℚ
  sessionTimes : List ℚ
deriving DecidableEq, Repr

/-- `GameState` of the simple math store (actions are modelled as separate
functions below). -/
structure GameState where
  mode : GameMode
  difficulty : Difficulty
  isPlaying : Bool
  currentQuestion : Option String
  currentAnswer : Option ℚ
  questionStartTime : Option ℚ
  stats : GameStats
deriving DecidableEq, Repr

/-- `initialStats`. -/
def initialStats : GameStats :=
  { totalQuestions := 0
    correctAnswers := 0
    currentStreak := 0
    bestStreak := 0
    averageTime := 0
    sessionTimes := [] }

namespace GameStore

/-- The store's initial state. -/
def initialState : GameState :=
  { mode := .addition
    difficulty := .d1
    isPlaying := false
    currentQuestion := none
    currentAnswer := none
    questionStartTime := none
    stats := initialStats }

/-- `setMode(mode)`. -/
def setMode (s : GameState) (mode : GameMode) : GameState :=
  { s with mode := mode }

/-- `setDifficulty(difficulty)`. -/
def setDifficulty (s : GameState) (difficulty : Difficulty) : GameState :=
  { s with difficulty := difficulty }

/-- `startGame()`. -/
def startGame (s : GameState) (now : ℚ) : GameState :=
  { s with isPlaying := true, questionStartTime := some now }

/-- `endGame()`. -/
def endGame (s : GameState) : GameState :=
  { s with
    isPlaying := false
    currentQuestion := none
    currentAnswer := none
    questionStartTime := none }

/-- `setQuestion(question, answer)`. -/
def setQuestion (s : GameState) (question : String) (answer : ℚ) (now : ℚ) :
    GameState :=
  { s with
    currentQuestion := some question
    currentAnswer := some answer
    questionStartTime := some now }

/-- `submitAnswer(userAnswer)`: returns the correctness flag and the updated
state.  `userAnswer === state.currentAnswer` is `false` when
`currentAnswer` is `null`. -/
def submitAnswer (s : GameState) (userAnswer : ℚ) (now : ℚ) :
    Bool × GameState :=
  let isCorrect :=
    match s.currentAnswer with
    | some a => userAnswer == a
    | none => false
  let timeTaken : ℚ :=
    match s.questionStartTime with
    | some t => (now - t) / 1000
    | none => 0
  let newSessionTimes := s.stats.sessionTimes ++ [timeTaken]
  let newTotalQuestions := s.stats.totalQuestions + 1
  let newCorrectAnswers := s.stats.correctAnswers + (if isCorrect then 1 else 0)
  let newCurrentStreak := if isCorrect then s.stats.currentStreak + 1 else 0
  let newBestStreak := max s.stats.bestStreak newCurrentStreak
  let newAverageTime := (newSessionTimes.foldl (· + ·) 0) / (newSessionTimes.length : ℚ)
  (isCorrect,
    { s with stats :=
      { totalQuestions := newTotalQuestions
        correctAnswers := newCorrectAnswers
        currentStreak := newCurrentStreak
        bestStreak := newBestStreak
        averageTime := newAverageTime
        sessionTimes := newSessionTimes } })

/-- `resetStats()` — the store's explicit stat reset. -/
def resetStats (s : GameState) : GameState :=
  { s with stats := initialStats }

end GameStore

/-! ## Divisibility mode store (`divisibilityStore.ts`) -/

/-- The `DivisibilityPhase` union type. -/
inductive DivisibilityPhase where
  | setup | divisibility | remainder | feedback | summary
deriving DecidableEq, Repr

/-- The `AnswerResult` union type. -/
inductive AnswerResult where
  | correct | incorrect | pending
deriving DecidableEq, Repr

/-- `ProblemResult` of the divisibility store. -/
structure ProblemResult where
  problem : DivisibilityProblem
  userDivisibilityAnswer : Option Bool
  userRemainderAnswer : Option ℤ
  divisibilityCorrect : Bool
  remainderCorrect : Bool
  timeMs : ℚ
deriving DecidableEq, Repr

/-- `DivisibilityGameState`.  `bestAccuracy` is an integer percentage
(`Math.round` of the session accuracy). -/
structure DivisibilityGameState where
  difficulty : Difficulty
  acceptNegativeRemainders : Bool
  phase : DivisibilityPhase
  currentProblem : Option DivisibilityProblem
  problemCount : ℕ
  maxProblems : ℕ
  results : List ProblemResult
  userDivisibilityAnswer : Option Bool
  divisibilityResult : AnswerResult
  gameStartTime : Option ℚ
  problemStartTime : Option ℚ
  totalGamesPlayed : ℕ
  totalProblemsAttempted : ℕ
  totalCorrectDivisibility : ℕ
  totalCorrectRemainder : ℕ
  bestAccuracy : ℤ
deriving DecidableEq, Repr

namespace DivisibilityStore

/-- The store's initial state. -/
def initialState : DivisibilityGameState :=
  { difficulty := .d2
    acceptNegativeRemainders := true
    phase := .setup
    currentProblem := none
    problemCount := 0
    maxProblems := 10
    results := []
    userDivisibilityAnswer := none
    divisibilityResult := .pending
    gameStartTime := none
    problemStartTime := none
    totalGamesPlayed := 0
    totalProblemsAttempted := 0
    totalCorrectDivisibility := 0
    totalCorrectRemainder := 0
    bestAccuracy := 0 }

/-- `setDifficulty(difficulty)`. -/
def setDifficulty (s : DivisibilityGameState) (difficulty : Difficulty) :
    DivisibilityGameState :=
  { s with difficulty := difficulty }

/-- `setAcceptNegativeRemainders(accept)`. -/
def setAcceptNegativeRemainders (s : DivisibilityGameState) (accept : Bool) :
    DivisibilityGameState :=
  { s with acceptNegativeRemainders := accept }

/-- `setMaxProblems(count)`. -/
def setMaxProblems (s : DivisibilityGameState) (count : ℕ) :
    DivisibilityGameState :=
  { s with maxProblems := count }

/-- `startGame()`; the generated problem's randomness (`coin`, `ρ`) and
`Date.now()` are explicit inputs. -/
def startGame (s : DivisibilityGameState) (coin : Bool) (ρ : ℕ → ℕ) (now : ℚ) :
    DivisibilityGameState :=
  let problem := generateDefaultProblem s.difficulty coin ρ
  { s with
    phase := .divisibility
    currentProblem := some problem
    problemCount := 1
    results := []
    userDivisibilityAnswer := none
    divisibilityResult := .pending
    gameStartTime := some now
    problemStartTime := some now }

/-- `submitDivisibilityAnswer(isDivisible)`: explicit rejection (returns
`false`, state untouched) when there is no current problem. -/
def submitDivisibilityAnswer (s : DivisibilityGameState) (isDivisible : Bool) :
    Bool × DivisibilityGameState :=
  match s.currentProblem with
  | none => (false, s)
  | some currentProblem =>
    let isCorrect := validateDivisibilityAnswer currentProblem isDivisible
    (isCorrect,
      { s with
        userDivisibilityAnswer := some isDivisible
        divisibilityResult := if isCorrect then .correct else .incorrect
        phase := .remainder })

/-- `submitRemainderAnswer(remainder)`: explicit rejection when there is no
current problem or no recorded divisibility answer. -/
def submitRemainderAnswer (s : DivisibilityGameState) (remainder : ℤ)
    (now : ℚ) : Bool × DivisibilityGameState :=
  match s.currentProblem, s.userDivisibilityAnswer with
  | some currentProblem, some userDiv =>
    let isCorrect :=
      validateRemainderAnswer currentProblem remainder s.acceptNegativeRemainders
    let timeMs : ℚ :=
      match s.problemStartTime with
      | some t => now - t
      | none => 0
    let result : ProblemResult :=
      { problem := currentProblem
        userDivisibilityAnswer := some userDiv
        userRemainderAnswer := some remainder
        divisibilityCorrect := s.divisibilityResult == .correct
        remainderCorrect := isCorrect
        timeMs := timeMs }
    (isCorrect, { s with results := s.results ++ [result], phase := .feedback })
  | _, _ => (false, s)

/-- The session accuracy computed by `endGame` / `getSessionAccuracy`:
`Math.round((correctDiv + correctRem) / (results.length * 2) * 100)` (0 for
an empty result log). -/
def sessionAccuracy (results : List ProblemResult) : ℤ :=
  let correctDiv := (results.filter (fun r => r.divisibilityCorrect)).length
  let correctRem := (results.filter (fun r => r.remainderCorrect)).length
  let totalAnswers := results.length * 2
  if 0 < totalAnswers then
    jsRound (((correctDiv + correctRem : ℕ) : ℚ) / (totalAnswers : ℚ) * 100)
  else 0

/-- `endGame()`: folds the session into the persisted aggregates. -/
def endGame (s : DivisibilityGameState) : DivisibilityGameState :=
  let correctDiv := (s.results.filter (fun r => r.divisibilityCorrect)).length
  let correctRem := (s.results.filter (fun r => r.remainderCorrect)).length
  { s with
    phase := .summary
    totalGamesPlayed := s.totalGamesPlayed + 1
    totalProblemsAttempted := s.totalProblemsAttempted + s.results.length
    totalCorrectDivisibility := s.totalCorrectDivisibility + correctDiv
    totalCorrectRemainder := s.totalCorrectRemainder + correctRem
    bestAccuracy := max s.bestAccuracy (sessionAccuracy s.results) }

/-- `nextProblem()`: ends the game when the problem budget is used up,
otherwise generates the next problem. -/
def nextProblem (s : DivisibilityGameState) (coin : Bool) (ρ : ℕ → ℕ)
    (now : ℚ) : DivisibilityGameState :=
  if s.maxProblems ≤ s.problemCount then endGame s
  else
    { s with
      phase := .divisibility
      currentProblem := some (generateDefaultProblem s.difficulty coin ρ)
      problemCount := s.problemCount + 1
      userDivisibilityAnswer := none
      divisibilityResult := .pending
      problemStartTime := some now }

/-- `resetGame()`: clears session state, preserving the persisted stats. -/
def resetGame (s : DivisibilityGameState) : DivisibilityGameState :=
  { s with
    phase := .setup
    currentProblem := none
    problemCount := 0
    results := []
    userDivisibilityAnswer := none
    divisibilityResult := .pending
    gameStartTime := none
    problemStartTime := none }

end DivisibilityStore

/-! ## Chain mode store (`chainStore.ts`) -/

/-- The `ChainGamePhase` union type. -/
inductive ChainGamePhase where
  | setup | playing | review | complete
deriving DecidableEq, Repr

/-- `ChainStepResult`. -/
structure ChainStepResult where
  step : ChainStep
  userAnswer : Option ℤ
  isCorrect : Bool
  timeMs : ℚ
deriving DecidableEq, Repr

/-- `ChainHistoryEntry`. -/
structure ChainHistoryEntry where
  date : ℚ
  difficulty : Difficulty
  stats : ChainStats
deriving DecidableEq, Repr

/-- `ChainGameState`. -/
structure ChainGameState where
  difficulty : Difficulty
  phase : ChainGamePhase
  chain : Option GeneratedChain
  currentStepIndex : ℕ
  stepResults : List ChainStepResult
  gameStartTime : Option ℚ
  stepStartTime : Option ℚ
  totalGamesPlayed : ℕ
  totalChainsCompleted : ℕ
  bestScore : ℤ
  history : List ChainHistoryEntry
deriving DecidableEq, Repr

namespace ChainStore

/-- The store's initial state. -/
def initialState : ChainGameState :=
  { difficulty := .d2
    phase := .setup
    chain := none
    currentStepIndex := 0
    stepResults := []
    gameStartTime := none
    stepStartTime := none
    totalGamesPlayed := 0
    totalChainsCompleted := 0
    bestScore := 0
    history := [] }

/-- `setDifficulty(difficulty)`. -/
def setDifficulty (s : ChainGameState) (difficulty : Difficulty) :
    ChainGameState :=
  { s with difficulty := difficulty }

/-- `startGame()`; chain randomness and `Date.now()` are explicit inputs. -/
def startGame (s : ChainGameState) (ρ : ℕ → ℕ) (now : ℚ) : ChainGameState :=
  let chain := generateDefaultChain s.difficulty ρ
  { s with
    phase := .playing
    chain := some chain
    currentStepIndex := 0
    stepResults := []
    gameStartTime := some now
    stepStartTime := some now }

/-- `submitAnswer(answer)`: rejects (returns `false`, state untouched) when
there is no chain or the index is out of bounds; on the last step it
transitions to review without advancing the index. -/
def submitAnswer (s : ChainGameState) (answer : ℤ) (now : ℚ) :
    Bool × ChainGameState :=
  match s.chain with
  | none => (false, s)
  | some chain =>
    if h : s.currentStepIndex < chain.steps.length then
      let currentStep := chain.steps.get ⟨s.currentStepIndex, h⟩
      let isCorrect := answer == (currentStep.result : ℤ)
      let timeMs : ℚ :=
        match s.stepStartTime with
        | some t => now - t
        | none => 0
      let newResult : ChainStepResult :=
        { step := currentStep
          userAnswer := some answer
          isCorrect := isCorrect
          timeMs := timeMs }
      let isLastStep := chain.steps.length - 1 ≤ s.currentStepIndex
      (isCorrect,
        { s with
          stepResults := s.stepResults ++ [newResult]
          phase := if isLastStep then .review else .playing
          currentStepIndex := if isLastStep then s.currentStepIndex else s.currentStepIndex + 1
          stepStartTime := if isLastStep then none else some now })
    else (false, s)

/-- `skipStep()`: like `submitAnswer` with a `null` answer recorded as
incorrect. -/
def skipStep (s : ChainGameState) (now : ℚ) : ChainGameState :=
  match s.chain with
  | none => s
  | some chain =>
    if h : s.currentStepIndex < chain.steps.length then
      let currentStep := chain.steps.get ⟨s.currentStepIndex, h⟩
      let timeMs : ℚ :=
        match s.stepStartTime with
        | some t => now - t
        | none => 0
      let newResult : ChainStepResult :=
        { step := currentStep
          userAnswer := none
          isCorrect := false
          timeMs := timeMs }
      let isLastStep := chain.steps.length - 1 ≤ s.currentStepIndex
      { s with
        stepResults := s.stepResults ++ [newResult]
        phase := if isLastStep then .review else .playing
        currentStepIndex := if isLastStep then s.currentStepIndex else s.currentStepIndex + 1
        stepStartTime := if isLastStep then none else some now }
    else s

/-- `nextStep()`: advances only while strictly before the last step. -/
def nextStep (s : ChainGameState) (now : ℚ) : ChainGameState :=
  match s.chain with
  | none => s
  | some chain =>
    if s.currentStepIndex < chain.steps.length - 1 then
      { s with
        currentStepIndex := s.currentStepIndex + 1
        stepStartTime := some now }
    else s

/-- `reviewChain()`. -/
def reviewChain (s : ChainGameState) : ChainGameState :=
  { s with phase := .review }

/-- The session statistics `endGame` computes (also `getSessionStats`):
`calculateChainStats(stepResults.length, correctSteps, totalTimeMs,
completed)`. -/
def sessionStats (s : ChainGameState) (now : ℚ) : ChainStats :=
  let totalTimeMs : ℚ :=
    match s.gameStartTime with
    | some t => now - t
    | none => 0
  let correctSteps := (s.stepResults.filter (fun r => r.isCorrect)).length
  let completed : Bool :=
    match s.chain with
    | some chain => s.stepResults.length == chain.steps.length
    | none => false
  calculateChainStats s.stepResults.length correctSteps totalTimeMs completed

/-- `endGame()`: folds the session into the persisted aggregates, keeping
the last 20 history entries (`slice(-20)`). -/
def endGame (s : ChainGameState) (now : ℚ) : ChainGameState :=
  match s.chain with
  | none => { s with phase := .setup }
  | some chain =>
    if s.stepResults.length = 0 then { s with phase := .setup }
    else
      let stats := sessionStats s now
      let completed := s.stepResults.length = chain.steps.length
      let newHistoryEntry : ChainHistoryEntry :=
        { date := now, difficulty := s.difficulty, stats := stats }
      let newHistory := s.history ++ [newHistoryEntry]
      { s with
        phase := .complete
        totalGamesPlayed := s.totalGamesPlayed + 1
        totalChainsCompleted := if completed then s.totalChainsCompleted + 1 else s.totalChainsCompleted
        bestScore := max s.bestScore stats.finalScore
        history := newHistory.drop (newHistory.length - 20) }

/-- `resetGame()`: clears session state, preserving the persisted stats. -/
def resetGame (s : ChainGameState) : ChainGameState :=
  { s with
    phase := .setup
    chain := none
    currentStepIndex := 0
    stepResults := []
    gameStartTime := none
    stepStartTime := none }

/-- `getCurrentStep()`: `null` when there is no chain or the index is out of
bounds. -/
def getCurrentStep (s : ChainGameState) : Option ChainStep :=
  match s.chain with
  | none => none
  | some chain =>
    if h : s.currentStepIndex < chain.steps.length then
      some (chain.steps.get ⟨s.currentStepIndex, h⟩)
    else none

end ChainStore

/-- The index-safety invariant of the chain store: whenever a chain is
present, `currentStepIndex` is a valid index into its steps. -/
def ChainIdxInv (s : ChainGameState) : Prop :=
  ∀ c, s.chain = some c → s.currentStepIndex < c.steps.length

/-- Persisted-aggregate comparison for the simple math store
(`totalQuestions`, `correctAnswers`, `bestStreak` never decrease). -/
def GameAggLE (s t : GameState) : Prop :=
  s.stats.totalQuestions ≤ t.stats.totalQuestions ∧
  s.stats.correctAnswers ≤ t.stats.correctAnswers ∧
  s.stats.bestStreak ≤ t.stats.bestStreak

/-- Persisted-aggregate comparison for the divisibility store. -/
def DivAggLE (s t : DivisibilityGameState) : Prop :=
  s.totalGamesPlayed ≤ t.totalGamesPlayed ∧
  s.totalProblemsAttempted ≤ t.totalProblemsAttempted ∧
  s.totalCorrectDivisibility ≤ t.totalCorrectDivisibility ∧
  s.totalCorrectRemainder ≤ t.totalCorrectRemainder ∧
  s.bestAccuracy ≤ t.bestAccuracy

/-- Persisted-aggregate comparison for the chain store. -/
def ChainAggLE (s t : ChainGameState) : Prop :=
  s.totalGamesPlayed ≤ t.totalGamesPlayed ∧
  s.totalChainsCompleted ≤ t.totalChainsCompleted ∧
  s.bestScore ≤ t.bestScore

/-- The index-safety properties claimed for the chain store: every action
preserves the index invariant, submitting on the final step moves to review
without advancing, and `getCurrentStep` returns `none` when the chain is
absent or the index is past the last step. -/
def ChainStoreIndexSafe (s : ChainGameState) (ρ : ℕ → ℕ) (answer : ℤ)
    (now : ℚ) : Prop :=
  ChainIdxInv (ChainStore.startGame s ρ now) ∧
  ChainIdxInv (ChainStore.submitAnswer s answer now).2 ∧
  ChainIdxInv (ChainStore.skipStep s now) ∧
  ChainIdxInv (ChainStore.nextStep s now) ∧
  ChainIdxInv (ChainStore.resetGame s) ∧
  ChainIdxInv (ChainStore.reviewChain s) ∧
  ChainIdxInv (ChainStore.endGame s now) ∧
  (∀ c, s.chain = some c → s.currentStepIndex = c.steps.length - 1 →
    (ChainStore.submitAnswer s answer now).2.phase = ChainGamePhase.review ∧
    (ChainStore.submitAnswer s answer now).2.currentStepIndex = s.currentStepIndex) ∧
  (s.chain = none → ChainStore.getCurrentStep s = none) ∧
  (∀ c, s.chain = some c → c.steps.length ≤ s.currentStepIndex →
    ChainStore.getCurrentStep s = none)

/-- A concrete chain step, for instantiating session-end properties. -/
def chainWitnessStep : ChainStep :=
  { stepNumber := 1
    previousResult := 20
    addend := 20
    result := 40
    display := "20 + 20 = ?" }

/-- A concrete step result, for instantiating session-end properties. -/
def chainWitnessResult : ChainStepResult :=
  { step := chainWitnessStep
    userAnswer := some 40
    isCorrect := true
    timeMs := 1000 }

/-- A concrete chain-store state with a chain present and a non-empty result
log, for instantiating session-end properties. -/
def chainWitnessState : ChainGameState :=
  { ChainStore.initialState with
    chain := some (generateChain 10 20 Difficulty.d2 (fun _ => 0))
    stepResults := [chainWitnessResult]
    gameStartTime := some 0 }

/-! ## Theorems -/

theorem randomInt_le (lo hi r : ℕ) (h : lo ≤ hi) : randomInt lo hi r ≤ hi := by
  have hpos : 0 < hi - lo + 1 := Nat.succ_pos _
  have hmod : r % (hi - lo + 1) ≤ hi - lo := Nat.lt_succ_iff.mp (Nat.mod_lt r hpos)
  unfold randomInt
  omega

theorem le_randomInt (lo hi r : ℕ) : lo ≤ randomInt lo hi r :=
  Nat.le_add_right _ _

/-- Every difficulty's divisor range starts at 2 or above. -/
theorem divisorMin_ge_two (d : Difficulty) : 2 ≤ (divisibilityRanges d).divisorMin := by
  cases d <;> decide

/-- After the forced adjustment, the dividend is never divisible by the
divisor (the adjustment adds an offset in `[1, divisor-1]` to a multiple). -/
theorem forcedAdjust_mod_ne_zero (divisor sampled r : ℕ) (h2 : 2 ≤ divisor) :
    forcedAdjust divisor sampled r % divisor ≠ 0 := by
  unfold forcedAdjust
  by_cases h : sampled % divisor = 0
  · rw [if_pos h]
    have hk1 : 1 ≤ randomInt 1 (divisor - 1) r := le_randomInt _ _ _
    have hk2 : randomInt 1 (divisor - 1) r ≤ divisor - 1 :=
      randomInt_le 1 (divisor - 1) r (by omega)
    have hklt : randomInt 1 (divisor - 1) r < divisor := by omega
    rw [Nat.add_mod, h, Nat.zero_add, Nat.mod_mod_of_dvd _ dvd_rfl,
      Nat.mod_eq_of_lt hklt]
    omega
  · rw [if_neg h]
    exact h

/-- The invariant holds for any remainder-branch field assignment whose
dividend is not a multiple of the divisor. -/
theorem remainderProblem_fields_invariant (divisor dividend : ℕ) (s : String)
    (d : Difficulty) (h2 : 2 ≤ divisor) (hnd : dividend % divisor ≠ 0) :
    DivProblemInvariant
      ⟨dividend, divisor, dividend / divisor, dividend % divisor,
        (if 0 < dividend % divisor then ((dividend % divisor : ℕ) : ℤ) - (divisor : ℤ) else 0),
        false, s, d⟩ := by
  refine ⟨(Nat.div_add_mod _ _).symm, Nat.mod_lt _ (by omega), rfl, ?_⟩
  simp [DivProblemInvariant, hnd]

/-- The invariant holds for any exact-branch field assignment. -/
theorem exactProblem_fields_invariant (divisor quotient : ℕ) (s : String)
    (d : Difficulty) (h2 : 2 ≤ divisor) :
    DivProblemInvariant ⟨quotient * divisor, divisor, quotient, 0, 0, true, s, d⟩ := by
  refine ⟨?_, show (0 : ℕ) < divisor by omega, by simp, by simp⟩
  show quotient * divisor = divisor * quotient + 0
  rw [Nat.add_zero, Nat.mul_comm]

theorem generateRemainderProblem_invariant (d : Difficulty) (ρ : ℕ → ℕ) :
    DivProblemInvariant (generateRemainderProblem d ρ) := by
  have h2 : 2 ≤ randomInt (divisibilityRanges d).divisorMin
      (divisibilityRanges d).divisorMax (ρ 0) :=
    le_trans (divisorMin_ge_two d) (le_randomInt _ _ _)
  exact remainderProblem_fields_invariant _ _ _ _ h2
    (forcedAdjust_mod_ne_zero _ _ _ h2)

theorem generateExactDivisibilityProblem_invariant (d : Difficulty) (r0 r1 : ℕ) :
    DivProblemInvariant (generateExactDivisibilityProblem d r0 r1) := by
  have h2 : 2 ≤ randomInt (divisibilityRanges d).divisorMin
      (divisibilityRanges d).divisorMax r0 :=
    le_trans (divisorMin_ge_two d) (le_randomInt _ _ _)
  exact exactProblem_fields_invariant _ _ _ _ h2

/-- C1: every problem returned by `generateDivisibilityProblem` — via the
exact-divisibility branch, the remainder branch, or the bounded-retry
forced-adjustment path — satisfies `dividend = divisor*quotient + remainder`,
`0 ≤ remainder < divisor`, `negativeRemainder = remainder − divisor` when
`remainder > 0` (else `0`), and `isDivisible ↔ remainder = 0`. -/
theorem C1_generateDivisibilityProblem_invariant (d : Difficulty)
    (includeExactDivisibility shouldBeExactCoin : Bool) (ρ : ℕ → ℕ) :
    DivProblemInvariant
      (generateDivisibilityProblem d includeExactDivisibility shouldBeExactCoin ρ) := by
  unfold generateDivisibilityProblem
  cases hie : includeExactDivisibility && shouldBeExactCoin with
  | true => simpa using generateExactDivisibilityProblem_invariant d (ρ 0) (ρ 1)
  | false => simpa using generateRemainderProblem_invariant d ρ

/-- C7: `validateRemainderAnswer` accepts exactly the canonical positive
remainder, or (when negatives are accepted) the negative-remainder
alternative, or `0` for an exactly divisible problem; in particular the
generated problem `87 ÷ 5` (remainder 2, negativeRemainder −3) accepts `-3`
with negatives permitted. -/
theorem C7_validateRemainderAnswer_spec :
    (∀ (p : DivisibilityProblem) (u : ℤ) (acceptNegative : Bool),
      validateRemainderAnswer p u acceptNegative = true ↔
        (u = (p.remainder : ℤ) ∨
         (acceptNegative = true ∧ u = p.negativeRemainder) ∨
         (p.isDivisible = true ∧ u = 0))) ∧
    (generateRemainderProblem Difficulty.d2 problem87Stream).dividend = 87 ∧
    (generateRemainderProblem Difficulty.d2 problem87Stream).divisor = 5 ∧
    (generateRemainderProblem Difficulty.d2 problem87Stream).quotient = 17 ∧
    (generateRemainderProblem Difficulty.d2 problem87Stream).remainder = 2 ∧
    (generateRemainderProblem Difficulty.d2 problem87Stream).negativeRemainder = -3 ∧
    (generateRemainderProblem Difficulty.d2 problem87Stream).isDivisible = false ∧
    validateRemainderAnswer (generateRemainderProblem Difficulty.d2 problem87Stream)
      (-3) true = true := by
  refine ⟨?_, by decide, by decide, by decide, by decide, by decide, by decide, by decide⟩
  intro p u acc
  by_cases hd : p.isDivisible = true <;> by_cases hu0 : u = 0 <;>
    by_cases hur : u = (p.remainder : ℤ) <;> by_cases hacc : acc = true <;>
    by_cases hun : u = p.negativeRemainder <;>
    simp_all [validateRemainderAnswer]

/-- `Math.round` of an integer is that integer. -/
theorem jsRound_intCast (n : ℤ) : jsRound (n : ℚ) = n := by
  unfold jsRound
  rw [Int.floor_eq_iff]
  constructor
  · norm_num
  · norm_num

/-- C2 counterexample: with `correctAnswer = 65.43` and 2 decimal places the
claim asserts user input `65.44` is accepted, but `|65.44 − 65.43| = 0.01`
exceeds the tolerance `0.005`, so the code rejects it. -/
theorem C2_counterexample_65_44_rejected :
    isPercentageCorrect (1636/25) (6543/100) 2 = false := by
  simp only [isPercentageCorrect, decide_eq_false_iff_not]
  rw [if_neg (by norm_num : ¬(2 : ℕ) = 1)]
  rw [show (1636 : ℚ)/25 - 6543/100 = 1/100 by norm_num]
  rw [abs_of_nonneg (by norm_num : (0 : ℚ) ≤ 1/100)]
  norm_num

/-- C2 (amended): `isPercentageCorrect` returns true iff
`|userAnswer − correctAnswer| ≤ tolerance` (0.05 for 1-decimal, 0.005
otherwise), boundary inclusive; for answer 65.43 at 2 decimals it accepts
65.435 (exactly at tolerance) and rejects 65.44 and 65.50. -/
theorem C2_isPercentageCorrect_tolerance :
    (∀ (u c : ℚ) (dp : ℕ),
      isPercentageCorrect u c dp = true ↔
        |u - c| ≤ (if dp = 1 then (1 : ℚ)/20 else 1/200)) ∧
    isPercentageCorrect (13087/200) (6543/100) 2 = true ∧
    isPercentageCorrect (1636/25) (6543/100) 2 = false ∧
    isPercentageCorrect (131/2) (6543/100) 2 = false := by
  refine ⟨?_, ?_, ?_, ?_⟩
  · intro u c dp
    simp [isPercentageCorrect]
  · simp only [isPercentageCorrect, decide_eq_true_eq]
    rw [if_neg (by norm_num : ¬(2 : ℕ) = 1)]
    rw [show (13087 : ℚ)/200 - 6543/100 = 1/200 by norm_num]
    rw [abs_of_nonneg (by norm_num : (0 : ℚ) ≤ 1/200)]
  · simp only [isPercentageCorrect, decide_eq_false_iff_not]
    rw [if_neg (by norm_num : ¬(2 : ℕ) = 1)]
    rw [show (1636 : ℚ)/25 - 6543/100 = 1/100 by norm_num]
    rw [abs_of_nonneg (by norm_num : (0 : ℚ) ≤ 1/100)]
    norm_num
  · simp only [isPercentageCorrect, decide_eq_false_iff_not]
    rw [if_neg (by norm_num : ¬(2 : ℕ) = 1)]
    rw [show (131 : ℚ)/2 - 6543/100 = 7/100 by norm_num]
    rw [abs_of_nonneg (by norm_num : (0 : ℚ) ≤ 7/100)]
    norm_num

theorem percentageLoop_badStream_none (fuel : ℕ) :
    ∀ i, percentageLoop Difficulty.d1 percentageBadStream i fuel = none := by
  induction fuel with
  | zero => intro i; rfl
  | succ n ih =>
    intro i
    have hden : percentageBadStream (2 * i) = 0 := by
      simp [percentageBadStream, Nat.mul_mod_right]
    have hnum : percentageBadStream (2 * i + 1) = 15 := by
      have h1 : (2 * i + 1) % 2 = 1 := by omega
      simp [percentageBadStream, h1]
    have hsamp : percentageSample Difficulty.d1 0 15 = (25, 50) := by rfl
    have hcalc : calculatePercentage 25 50
        (percentageConfig Difficulty.d1).decimalPlaces = 50 := by
      simp only [calculatePercentage, percentageConfig]
      rw [show ((25 : ℕ) : ℚ) / ((50 : ℕ) : ℚ) * 100 * (10 : ℚ) ^ (1 : ℕ) =
        ((500 : ℤ) : ℚ) by push_cast; norm_num]
      rw [jsRound_intCast]
      norm_num
    have hrej : percentageRejected Difficulty.d1 (50 : ℚ) = true := by
      simp [percentageRejected]
    simp only [percentageLoop, hden, hnum, hsamp, hcalc, hrej, if_true]
    exact ih (i + 1)

/-- C4 counterexample: the percentage engine's rejection loop has no retry
bound and no deterministic fallback — on the adversarial stream that always
draws the ratio `25/50` (percentage exactly 50, always rejected), the loop
produces nothing no matter how many iterations it is allowed, contradicting
the claim that every engine's retry loop is bounded with a fallback. -/
theorem C4_counterexample_percentage_unbounded : PercentageLoopUnbounded := by
  intro fuel
  unfold generatePercentageProblem
  rw [percentageLoop_badStream_none fuel 0]

theorem chainStepsGo_length (d : Difficulty) (ρ : ℕ → ℕ) (n i cur : ℕ) :
    (chainStepsGo d ρ i cur n).1.length = n := by
  induction n generalizing i cur with
  | zero => rfl
  | succ n ih =>
    simp only [chainStepsGo, List.length_cons]
    rw [ih]

theorem chainStepsGo_additive (d : Difficulty) (ρ : ℕ → ℕ) (n i cur : ℕ) :
    StepsAdditive (chainStepsGo d ρ i cur n).1 := by
  induction n generalizing i cur with
  | zero => intro s hs; cases hs
  | succ n ih =>
    intro s hs
    simp only [chainStepsGo, List.mem_cons] at hs
    cases hs with
    | inl h => rw [h]
    | inr h => exact ih (i + 1) _ s h

theorem chainStepsGo_chained (d : Difficulty) (ρ : ℕ → ℕ) (n i cur : ℕ) :
    Chained cur (chainStepsGo d ρ i cur n).1 := by
  induction n generalizing i cur with
  | zero => trivial
  | succ n ih =>
    exact ⟨rfl, ih (i + 1) _⟩

theorem chained_get (l : List ChainStep) (cur : ℕ) (hc : Chained cur l)
    (i : ℕ) (h : i + 1 < l.length) :
    (l.get ⟨i + 1, h⟩).previousResult = (l.get ⟨i, Nat.lt_of_succ_lt h⟩).result := by
  induction l generalizing cur i with
  | nil => cases h
  | cons s rest ih =>
    cases i with
    | zero =>
      cases rest with
      | nil => simp at h
      | cons s2 r2 => exact hc.2.1
    | succ j =>
      exact ih s.result hc.2 j (Nat.lt_of_succ_lt_succ h)

/-- C3: every generated chain (with a sane configuration `1 ≤ minLength ≤
maxLength`, as used by the chain mode's `minLength: 10, maxLength: 20`) has
its step count within `[minLength, maxLength]`, every step satisfies
`result = previousResult + addend`, and consecutive steps are linked by
`steps[i+1].previousResult = steps[i].result`. -/
theorem C3_generateChain_invariant (minLength maxLength : ℕ) (d : Difficulty)
    (ρ : ℕ → ℕ) (h1 : 1 ≤ minLength) (h2 : minLength ≤ maxLength) :
    ChainInvariant (generateChain minLength maxLength d ρ) minLength maxLength := by
  have hmin : minLength ≤ randomInt minLength maxLength (ρ 0) := le_randomInt _ _ _
  have hmax : randomInt minLength maxLength (ρ 0) ≤ maxLength := randomInt_le _ _ _ h2
  have hlen : (generateChain minLength maxLength d ρ).steps.length =
      randomInt minLength maxLength (ρ 0) := by
    show (_ :: (chainStepsGo d ρ 2 _ (randomInt minLength maxLength (ρ 0) - 1)).1).length = _
    rw [List.length_cons, chainStepsGo_length]
    omega
  have hchained : Chained
      (randomInt (chainRanges d).startLo (chainRanges d).startHi (ρ 1))
      (generateChain minLength maxLength d ρ).steps :=
    ⟨rfl, chainStepsGo_chained d ρ _ 2 _⟩
  refine ⟨hlen ▸ hmin, hlen ▸ hmax, ?_, fun i h => chained_get _ _ hchained i h⟩
  intro s hs
  rcases List.mem_cons.mp hs with h | h
  · rw [h]
  · exact chainStepsGo_additive d ρ _ 2 _ s h

theorem C3_witness :
    1 ≤ 10 ∧ 10 ≤ 20 ∧
    ChainInvariant (generateChain 10 20 Difficulty.d2 (fun _ => 0)) 10 20 :=
  ⟨by decide, by decide,
    C3_generateChain_invariant 10 20 Difficulty.d2 (fun _ => 0) (by decide) (by decide)⟩

/-- C8: for positive `totalSteps`, `calculateChainStats` computes
`finalScore = correct×10 + round(accuracy×2) + (avg < 5 ?
round((5−avg)×10) : 0) + (completed ? 50 : 0)` where
`accuracy = correctSteps/totalSteps×100` and
`avg = totalTimeMs/totalSteps/1000`. -/
theorem C8_calculateChainStats_formula (totalSteps correctSteps : ℕ)
    (totalTimeMs : ℚ) (completed : Bool) (h : 0 < totalSteps) :
    (calculateChainStats totalSteps correctSteps totalTimeMs completed).finalScore =
      (correctSteps : ℤ) * 10 +
      jsRound (((correctSteps : ℚ) / (totalSteps : ℚ) * 100) * 2) +
      (if totalTimeMs / (totalSteps : ℚ) / 1000 < 5 then
        jsRound ((5 - totalTimeMs / (totalSteps : ℚ) / 1000) * 10) else 0) +
      (if completed then 50 else 0) := by
  simp [calculateChainStats, if_pos h]

theorem C8_witness :
    0 < 4 ∧ (calculateChainStats 4 3 8000 true).finalScore =
      ((3 : ℕ) : ℤ) * 10 +
      jsRound ((((3 : ℕ) : ℚ) / ((4 : ℕ) : ℚ) * 100) * 2) +
      (if (8000 : ℚ) / ((4 : ℕ) : ℚ) / 1000 < 5 then
        jsRound ((5 - (8000 : ℚ) / ((4 : ℕ) : ℚ) / 1000) * 10) else 0) +
      (if true then 50 else 0) :=
  ⟨by decide, C8_calculateChainStats_formula 4 3 8000 true (by decide)⟩

theorem generateChain_steps_pos (a b : ℕ) (d : Difficulty) (ρ : ℕ → ℕ) :
    0 < (generateChain a b d ρ).steps.length := by
  show 0 < (_ :: _).length
  simp

/-- C10: under the index invariant, every chain-store action keeps
`currentStepIndex` within bounds whenever a chain is present; submitting on
the final step transitions to review without advancing the index; and
`getCurrentStep` returns `none` whenever the chain is absent or the index is
past the last step. -/
theorem C10_chainStore_index_safety (s : ChainGameState) (ρ : ℕ → ℕ)
    (answer : ℤ) (now : ℚ) (hInv : ChainIdxInv s) :
    ChainStoreIndexSafe s ρ answer now := by
  refine ⟨?_, ?_, ?_, ?_, ?_, ?_, ?_, ?_, ?_, ?_⟩
  · intro c hc
    have hgen : generateDefaultChain s.difficulty ρ = c := by
      simpa [ChainStore.startGame] using hc
    show (0 : ℕ) < c.steps.length
    rw [← hgen]
    exact generateChain_steps_pos 10 20 s.difficulty ρ
  · rcases hc : s.chain with _ | chain
    · simp only [ChainStore.submitAnswer, hc]
      exact hInv
    · by_cases h : s.currentStepIndex < chain.steps.length
      · simp only [ChainStore.submitAnswer, hc, dif_pos h]
        intro c h'
        have hcc : chain = c := by simpa using h'
        subst hcc
        show (if chain.steps.length - 1 ≤ s.currentStepIndex then s.currentStepIndex
          else s.currentStepIndex + 1) < chain.steps.length
        split <;> omega
      · simp only [ChainStore.submitAnswer, hc, dif_neg h]
        exact hInv
  · rcases hc : s.chain with _ | chain
    · simp only [ChainStore.skipStep, hc]
      exact hInv
    · by_cases h : s.currentStepIndex < chain.steps.length
      · simp only [ChainStore.skipStep, hc, dif_pos h]
        intro c h'
        have hcc : chain = c := by simpa using h'
        subst hcc
        show (if chain.steps.length - 1 ≤ s.currentStepIndex then s.currentStepIndex
          else s.currentStepIndex + 1) < chain.steps.length
        split <;> omega
      · simp only [ChainStore.skipStep, hc, dif_neg h]
        exact hInv
  · rcases hc : s.chain with _ | chain
    · simp only [ChainStore.nextStep, hc]
      exact hInv
    · by_cases h : s.currentStepIndex < chain.steps.length - 1
      · simp only [ChainStore.nextStep, hc, if_pos h]
        intro c h'
        have hcc : chain = c := by simpa using h'
        subst hcc
        show s.currentStepIndex + 1 < chain.steps.length
        omega
      · simp only [ChainStore.nextStep, hc, if_neg h]
        exact hInv
  · intro c hc
    simp [ChainStore.resetGame] at hc
  · intro c hc
    have h2 : s.chain = some c := hc
    exact hInv c h2
  · rcases hc : s.chain with _ | chain
    · simp only [ChainStore.endGame, hc]
      intro c h'
      simp at h'
    · by_cases h : s.stepResults.length = 0
      · simp only [ChainStore.endGame, hc, if_pos h]
        intro c h'
        have hcc : chain = c := by simpa using h'
        subst hcc
        show s.currentStepIndex < chain.steps.length
        exact hInv chain hc
      · simp only [ChainStore.endGame, hc, if_neg h]
        intro c h'
        have hcc : chain = c := by simpa using h'
        subst hcc
        show s.currentStepIndex < chain.steps.length
        exact hInv chain hc
  · intro c hc hidx
    have hlt : s.currentStepIndex < c.steps.length := hInv c hc
    have hlast : c.steps.length - 1 ≤ s.currentStepIndex := by omega
    constructor
    · simp only [ChainStore.submitAnswer, hc, dif_pos hlt, if_pos hlast]
    · simp only [ChainStore.submitAnswer, hc, dif_pos hlt, if_pos hlast]
  · intro h
    simp only [ChainStore.getCurrentStep, h]
  · intro c hc hge
    simp only [ChainStore.getCurrentStep, hc, dif_neg (not_lt.mpr hge)]

theorem C10_witness :
    ChainIdxInv ChainStore.initialState ∧
    ChainStoreIndexSafe ChainStore.initialState (fun _ => 0) 5 0 := by
  have h0 : ChainIdxInv ChainStore.initialState := fun c hc => nomatch hc
  exact ⟨h0, C10_chainStore_index_safety _ _ _ _ h0⟩

/-- C5 counterexample: in the simple math store, submitting an answer with no
current question (the initial state, before any question is set) returns
`false` but does NOT leave the statistics unchanged — `totalQuestions` is
incremented from 0 to 1 and a session time is appended, contradicting the
claim that all session and persisted state is untouched. -/
theorem C5_counterexample_mathStore_mutates :
    GameStore.initialState.currentAnswer = none ∧
    (GameStore.submitAnswer GameStore.initialState 5 0).1 = false ∧
    GameStore.initialState.stats.totalQuestions = 0 ∧
    (GameStore.submitAnswer GameStore.initialState 5 0).2.stats.totalQuestions = 1 ∧
    (GameStore.submitAnswer GameStore.initialState 5 0).2.stats.sessionTimes = [0] :=
  ⟨rfl, rfl, rfl, rfl, rfl⟩

/-- C5 (amended): with no current problem, the divisibility store's answer
submissions and the chain store's `submitAnswer` are explicit rejections
(return `false`, state untouched); the simple math store's `submitAnswer`
also returns `false` without crashing, but still increments
`totalQuestions`, appends a session time, and resets the current streak. -/
theorem C5_no_problem_submission (sd : DivisibilityGameState)
    (sc : ChainGameState) (sg : GameState) (b : Bool) (r answer : ℤ)
    (u now : ℚ)
    (hd : sd.currentProblem = none) (hc : sc.chain = none)
    (hg : sg.currentAnswer = none) :
    DivisibilityStore.submitDivisibilityAnswer sd b = (false, sd) ∧
    DivisibilityStore.submitRemainderAnswer sd r now = (false, sd) ∧
    ChainStore.submitAnswer sc answer now = (false, sc) ∧
    (GameStore.submitAnswer sg u now).1 = false ∧
    (GameStore.submitAnswer sg u now).2.stats.totalQuestions =
      sg.stats.totalQuestions + 1 ∧
    (GameStore.submitAnswer sg u now).2.stats.sessionTimes.length =
      sg.stats.sessionTimes.length + 1 ∧
    (GameStore.submitAnswer sg u now).2.stats.currentStreak = 0 := by
  refine ⟨?_, ?_, ?_, ?_, ?_, ?_, ?_⟩
  · simp only [DivisibilityStore.submitDivisibilityAnswer, hd]
  · simp only [DivisibilityStore.submitRemainderAnswer, hd]
  · simp only [ChainStore.submitAnswer, hc]
  · simp only [GameStore.submitAnswer, hg]
  · simp only [GameStore.submitAnswer, hg]
  · simp only [GameStore.submitAnswer, hg, List.length_append, List.length_cons,
      List.length_nil]
  · simp [GameStore.submitAnswer, hg]

theorem C5_witness :
    DivisibilityStore.initialState.currentProblem = none ∧
    ChainStore.initialState.chain = none ∧
    GameStore.initialState.currentAnswer = none ∧
    (DivisibilityStore.submitDivisibilityAnswer DivisibilityStore.initialState true =
      (false, DivisibilityStore.initialState) ∧
    DivisibilityStore.submitRemainderAnswer DivisibilityStore.initialState 2 0 =
      (false, DivisibilityStore.initialState) ∧
    ChainStore.submitAnswer ChainStore.initialState 7 0 =
      (false, ChainStore.initialState) ∧
    (GameStore.submitAnswer GameStore.initialState 5 0).1 = false ∧
    (GameStore.submitAnswer GameStore.initialState 5 0).2.stats.totalQuestions =
      GameStore.initialState.stats.totalQuestions + 1 ∧
    (GameStore.submitAnswer GameStore.initialState 5 0).2.stats.sessionTimes.length =
      GameStore.initialState.stats.sessionTimes.length + 1 ∧
    (GameStore.submitAnswer GameStore.initialState 5 0).2.stats.currentStreak = 0) :=
  ⟨rfl, rfl, rfl,
    C5_no_problem_submission DivisibilityStore.initialState ChainStore.initialState
      GameStore.initialState true 2 7 5 0 rfl rfl rfl⟩

theorem gameSubmit_aggLE (s : GameState) (u now : ℚ) :
    GameAggLE s (GameStore.submitAnswer s u now).2 :=
  ⟨Nat.le_succ _, Nat.le_add_right _ _, le_max_left _ _⟩

theorem divEndGame_aggLE (s : DivisibilityGameState) :
    DivAggLE s (DivisibilityStore.endGame s) :=
  ⟨Nat.le_add_right _ _, Nat.le_add_right _ _, Nat.le_add_right _ _,
    Nat.le_add_right _ _, le_max_left _ _⟩

theorem chainEndGame_aggLE (s : ChainGameState) (now : ℚ) :
    ChainAggLE s (ChainStore.endGame s now) := by
  rcases hc : s.chain with _ | chain
  · simp only [ChainStore.endGame, hc]
    exact ⟨le_rfl, le_rfl, le_rfl⟩
  · by_cases h : s.stepResults.length = 0
    · simp only [ChainStore.endGame, hc, if_pos h]
      exact ⟨le_rfl, le_rfl, le_rfl⟩
    · simp only [ChainStore.endGame, hc, if_neg h]
      refine ⟨Nat.le_add_right _ _, ?_, le_max_left _ _⟩
      split
      · exact Nat.le_add_right _ _
      · exact le_rfl

/-- C9: every store action except the explicit stat reset leaves each
persisted aggregate (`totalGamesPlayed`, `totalProblemsAttempted`,
`totalCorrectDivisibility`, `totalCorrectRemainder`, `totalChainsCompleted`,
`totalQuestions`, `correctAnswers`, `bestAccuracy`, `bestScore`,
`bestStreak`) at or above its previous value, and the "best" fields are
updated by monotonic max of the old value and the session value. -/
theorem C9_aggregates_monotone :
    (∀ (s : ChainGameState) (now : ℚ) (c : GeneratedChain), s.chain = some c →
      s.stepResults ≠ [] →
      (ChainStore.endGame s now).bestScore =
        max s.bestScore (ChainStore.sessionStats s now).finalScore) ∧
    (∀ (s : GameState) (u now : ℚ),
      (GameStore.submitAnswer s u now).2.stats.bestStreak =
        max s.stats.bestStreak (GameStore.submitAnswer s u now).2.stats.currentStreak) ∧
    (∀ (s : DivisibilityGameState),
      (DivisibilityStore.endGame s).bestAccuracy =
        max s.bestAccuracy (DivisibilityStore.sessionAccuracy s.results)) ∧
    (∀ (s : GameState) (m : GameMode), GameAggLE s (GameStore.setMode s m)) ∧
    (∀ (s : GameState) (d : Difficulty), GameAggLE s (GameStore.setDifficulty s d)) ∧
    (∀ (s : GameState) (now : ℚ), GameAggLE s (GameStore.startGame s now)) ∧
    (∀ (s : GameState), GameAggLE s (GameStore.endGame s)) ∧
    (∀ (s : GameState) (q : String) (a now : ℚ),
      GameAggLE s (GameStore.setQuestion s q a now)) ∧
    (∀ (s : GameState) (u now : ℚ), GameAggLE s (GameStore.submitAnswer s u now).2) ∧
    (∀ (s : DivisibilityGameState) (d : Difficulty),
      DivAggLE s (DivisibilityStore.setDifficulty s d)) ∧
    (∀ (s : DivisibilityGameState) (b : Bool),
      DivAggLE s (DivisibilityStore.setAcceptNegativeRemainders s b)) ∧
    (∀ (s : DivisibilityGameState) (n : ℕ),
      DivAggLE s (DivisibilityStore.setMaxProblems s n)) ∧
    (∀ (s : DivisibilityGameState) (coin : Bool) (ρ : ℕ → ℕ) (now : ℚ),
      DivAggLE s (DivisibilityStore.startGame s coin ρ now)) ∧
    (∀ (s : DivisibilityGameState) (b : Bool),
      DivAggLE s (DivisibilityStore.submitDivisibilityAnswer s b).2) ∧
    (∀ (s : DivisibilityGameState) (r : ℤ) (now : ℚ),
      DivAggLE s (DivisibilityStore.submitRemainderAnswer s r now).2) ∧
    (∀ (s : DivisibilityGameState), DivAggLE s (DivisibilityStore.endGame s)) ∧
    (∀ (s : DivisibilityGameState) (coin : Bool) (ρ : ℕ → ℕ) (now : ℚ),
      DivAggLE s (DivisibilityStore.nextProblem s coin ρ now)) ∧
    (∀ (s : DivisibilityGameState), DivAggLE s (DivisibilityStore.resetGame s)) ∧
    (∀ (s : ChainGameState) (d : Difficulty), ChainAggLE s (ChainStore.setDifficulty s d)) ∧
    (∀ (s : ChainGameState) (ρ : ℕ → ℕ) (now : ℚ),
      ChainAggLE s (ChainStore.startGame s ρ now)) ∧
    (∀ (s : ChainGameState) (a : ℤ) (now : ℚ),
      ChainAggLE s (ChainStore.submitAnswer s a now).2) ∧
    (∀ (s : ChainGameState) (now : ℚ), ChainAggLE s (ChainStore.skipStep s now)) ∧
    (∀ (s : ChainGameState) (now : ℚ), ChainAggLE s (ChainStore.nextStep s now)) ∧
    (∀ (s : ChainGameState), ChainAggLE s (ChainStore.reviewChain s)) ∧
    (∀ (s : ChainGameState) (now : ℚ), ChainAggLE s (ChainStore.endGame s now)) ∧
    (∀ (s : ChainGameState), ChainAggLE s (ChainStore.resetGame s)) := by
  refine ⟨?_, ?_, ?_, ?_, ?_, ?_, ?_, ?_, ?_, ?_, ?_, ?_, ?_, ?_, ?_, ?_, ?_,
    ?_, ?_, ?_, ?_, ?_, ?_, ?_, ?_, ?_⟩
  · intro s now c hc hne
    have hlen : ¬s.stepResults.length = 0 := fun h => hne (List.length_eq_zero.mp h)
    simp only [ChainStore.endGame, hc, if_neg hlen]
  · intro s u now
    rfl
  · intro s
    rfl
  · intro s m
    exact ⟨le_rfl, le_rfl, le_rfl⟩
  · intro s d
    exact ⟨le_rfl, le_rfl, le_rfl⟩
  · intro s now
    exact ⟨le_rfl, le_rfl, le_rfl⟩
  · intro s
    exact ⟨le_rfl, le_rfl, le_rfl⟩
  · intro s q a now
    exact ⟨le_rfl, le_rfl, le_rfl⟩
  · intro s u now
    exact gameSubmit_aggLE s u now
  · intro s d
    exact ⟨le_rfl, le_rfl, le_rfl, le_rfl, le_rfl⟩
  · intro s b
    exact ⟨le_rfl, le_rfl, le_rfl, le_rfl, le_rfl⟩
  · intro s n
    exact ⟨le_rfl, le_rfl, le_rfl, le_rfl, le_rfl⟩
  · intro s coin ρ now
    exact ⟨le_rfl, le_rfl, le_rfl, le_rfl, le_rfl⟩
  · intro s b
    rcases hp : s.currentProblem with _ | p
    · simp only [DivisibilityStore.submitDivisibilityAnswer, hp]
      exact ⟨le_rfl, le_rfl, le_rfl, le_rfl, le_rfl⟩
    · simp only [DivisibilityStore.submitDivisibilityAnswer, hp]
      exact ⟨le_rfl, le_rfl, le_rfl, le_rfl, le_rfl⟩
  · intro s r now
    rcases hp : s.currentProblem with _ | p
    · simp only [DivisibilityStore.submitRemainderAnswer, hp]
      exact ⟨le_rfl, le_rfl, le_rfl, le_rfl, le_rfl⟩
    · rcases hu : s.userDivisibilityAnswer with _ | ud
      · simp only [DivisibilityStore.submitRemainderAnswer, hp, hu]
        exact ⟨le_rfl, le_rfl, le_rfl, le_rfl, le_rfl⟩
      · simp only [DivisibilityStore.submitRemainderAnswer, hp, hu]
        exact ⟨le_rfl, le_rfl, le_rfl, le_rfl, le_rfl⟩
  · intro s
    exact divEndGame_aggLE s
  · intro s coin ρ now
    by_cases h : s.maxProblems ≤ s.problemCount
    · simp only [DivisibilityStore.nextProblem, if_pos h]
      exact divEndGame_aggLE s
    · simp only [DivisibilityStore.nextProblem, if_neg h]
      exact ⟨le_rfl, le_rfl, le_rfl, le_rfl, le_rfl⟩
  · intro s
    exact ⟨le_rfl, le_rfl, le_rfl, le_rfl, le_rfl⟩
  · intro s d
    exact ⟨le_rfl, le_rfl, le_rfl⟩
  · intro s ρ now
    exact ⟨le_rfl, le_rfl, le_rfl⟩
  · intro s a now
    rcases hc : s.chain with _ | chain
    · simp only [ChainStore.submitAnswer, hc]
      exact ⟨le_rfl, le_rfl, le_rfl⟩
    · by_cases h : s.currentStepIndex < chain.steps.length
      · simp only [ChainStore.submitAnswer, hc, dif_pos h]
        exact ⟨le_rfl, le_rfl, le_rfl⟩
      · simp only [ChainStore.submitAnswer, hc, dif_neg h]
        exact ⟨le_rfl, le_rfl, le_rfl⟩
  · intro s now
    rcases hc : s.chain with _ | chain
    · simp only [ChainStore.skipStep, hc]
      exact ⟨le_rfl, le_rfl, le_rfl⟩
    · by_cases h : s.currentStepIndex < chain.steps.length
      · simp only [ChainStore.skipStep, hc, dif_pos h]
        exact ⟨le_rfl, le_rfl, le_rfl⟩
      · simp only [ChainStore.skipStep, hc, dif_neg h]
        exact ⟨le_rfl, le_rfl, le_rfl⟩
  · intro s now
    rcases hc : s.chain with _ | chain
    · simp only [ChainStore.nextStep, hc]
      exact ⟨le_rfl, le_rfl, le_rfl⟩
    · by_cases h : s.currentStepIndex < chain.steps.length - 1
      · simp only [ChainStore.nextStep, hc, if_pos h]
        exact ⟨le_rfl, le_rfl, le_rfl⟩
      · simp only [ChainStore.nextStep, hc, if_neg h]
        exact ⟨le_rfl, le_rfl, le_rfl⟩
  · intro s
    exact ⟨le_rfl, le_rfl, le_rfl⟩
  · intro s now
    exact chainEndGame_aggLE s now
  · intro s
    exact ⟨le_rfl, le_rfl, le_rfl⟩

theorem C9_witness :
    chainWitnessState.chain =
      some (generateChain 10 20 Difficulty.d2 (fun _ => 0)) ∧
    chainWitnessState.stepResults ≠ [] ∧
    (ChainStore.endGame chainWitnessState 2000).bestScore =
      max chainWitnessState.bestScore
        (ChainStore.sessionStats chainWitnessState 2000).finalScore :=
  ⟨rfl, List.cons_ne_nil _ _,
    C9_aggregates_monotone.1 chainWitnessState 2000 _ rfl (List.cons_ne_nil _ _)⟩

theorem createRatio_numerator (a b : ℤ) : (createRatio a b).numerator = a := rfl

theorem createRatio_denominator (a b : ℤ) : (createRatio a b).denominator = b := rfl

theorem createRatio_value (a b : ℤ) : (createRatio a b).value = (a : ℚ) / (b : ℚ) := rfl

/-- With the same positive denominator, a strictly larger numerator gives a
strictly larger ratio value. -/
theorem createRatio_value_lt (a b den : ℤ) (hden : 0 < den) (hab : a < b) :
    (createRatio a den).value < (createRatio b den).value := by
  rw [createRatio_value, createRatio_value]
  have hden' : (0 : ℚ) < (den : ℚ) := by exact_mod_cast hden
  have hab' : (a : ℚ) < (b : ℚ) := by exact_mod_cast hab
  exact (div_lt_div_right hden').mpr hab'

/-- Ratio A of every loop attempt is freshly drawn from the difficulty's
numerator/denominator ranges. -/
theorem ratioAttempt_fst (d : Difficulty) (r0 r1 r2 r3 r4 r5 : ℕ) (sc : Bool) :
    (ratioAttempt d r0 r1 r2 r3 r4 r5 sc).1 =
      createRatio (randomInt (ratioConfig d).numLo (ratioConfig d).numHi r0 : ℤ)
        (randomInt (ratioConfig d).denLo (ratioConfig d).denHi r1 : ℤ) := rfl

/-- The pair returned by the rejection loop has its first component freshly
drawn from the ranges (for some raw draws). -/
theorem ratioLoopGo_fst (d : Difficulty) (ρ : ℕ → ℕ) (σ : ℕ → Bool)
    (t : ℕ) : ∀ i, ∃ ra rb,
    (ratioLoopGo d ρ σ i t).1 =
      createRatio (randomInt (ratioConfig d).numLo (ratioConfig d).numHi ra : ℤ)
        (randomInt (ratioConfig d).denLo (ratioConfig d).denHi rb : ℤ) := by
  induction t with
  | zero =>
    intro i
    exact ⟨ρ (8 * i), ρ (8 * i + 1), rfl⟩
  | succ t ih =>
    intro i
    simp only [ratioLoopGo]
    split
    · exact ih (i + 1)
    · exact ⟨ρ (8 * i), ρ (8 * i + 1), rfl⟩

/-- The loop's final `attempts` value is at most `i + 1 + triesLeft`. -/
theorem ratioLoopGo_attempts (d : Difficulty) (ρ : ℕ → ℕ) (σ : ℕ → Bool)
    (t : ℕ) : ∀ i, (ratioLoopGo d ρ σ i t).2.2 ≤ i + 1 + t := by
  induction t with
  | zero => intro i; exact le_rfl
  | succ t ih =>
    intro i
    simp only [ratioLoopGo]
    split
    · exact le_trans (ih (i + 1)) (by omega)
    · show i + 1 ≤ i + 1 + (t + 1)
      omega

/-- If the loop exits on a pair the rejection condition still flags, it must
have exhausted all its attempts. -/
theorem ratioLoopGo_bad_exhaust (d : Difficulty) (ρ : ℕ → ℕ) (σ : ℕ → Bool)
    (t : ℕ) : ∀ i,
    ratioBad d (ratioLoopGo d ρ σ i t).1 (ratioLoopGo d ρ σ i t).2.1 = true →
    (ratioLoopGo d ρ σ i t).2.2 = i + 1 + t := by
  induction t with
  | zero => intro i _; rfl
  | succ t ih =>
    intro i
    simp only [ratioLoopGo]
    split
    · intro hb
      rw [ih (i + 1) hb]
      omega
    · intro hb
      rename_i hcond
      exact absurd hb hcond

/-- A pair the rejection condition does not flag has distinct values. -/
theorem ratioBad_false_ne (d : Difficulty) (ra rb : Ratio)
    (h : ratioBad d ra rb = false) : ra.value ≠ rb.value := by
  simp only [ratioBad, Bool.or_eq_false_iff, decide_eq_false_iff_not] at h
  exact h.1.2

/-- Every difficulty's numerator range is non-trivial and its denominator
range is positive. -/
theorem ratioConfig_ranges (d : Difficulty) :
    (ratioConfig d).numLo ≤ (ratioConfig d).numHi ∧ 0 < (ratioConfig d).denLo := by
  cases d <;> decide

theorem natLog2Aux_spec : ∀ fuel n, 1 ≤ n → n ≤ fuel →
    2 ^ natLog2Aux fuel n ≤ n ∧ n < 2 ^ (natLog2Aux fuel n + 1) := by
  intro fuel
  induction fuel with
  | zero => intro n h1 h2; omega
  | succ fuel ih =>
    intro n h1 h2
    simp only [natLog2Aux]
    by_cases hn : n ≤ 1
    · rw [if_pos hn]
      norm_num
      omega
    · rw [if_neg hn]
      obtain ⟨ha, hb⟩ := ih (n / 2) (by omega) (by omega)
      constructor
      · rw [pow_succ]
        omega
      · rw [pow_succ]
        omega

/-- `natLog2` computes the floor base-2 logarithm. -/
theorem natLog2_spec (n : ℕ) (h : 1 ≤ n) :
    2 ^ natLog2 n ≤ n ∧ n < 2 ^ (natLog2 n + 1) :=
  natLog2Aux_spec n n h le_rfl

theorem le_roundHalfEven (q : ℚ) : q - 1/2 ≤ (roundHalfEven q : ℚ) := by
  have hf1 : (⌊q⌋ : ℚ) ≤ q := Int.floor_le q
  have hf2 : q < ⌊q⌋ + 1 := Int.lt_floor_add_one q
  simp only [roundHalfEven]
  split_ifs <;> push_cast <;> linarith

theorem roundHalfEven_le (q : ℚ) : (roundHalfEven q : ℚ) ≤ q + 1/2 := by
  have hf1 : (⌊q⌋ : ℚ) ≤ q := Int.floor_le q
  simp only [roundHalfEven]
  split_ifs with h1 h2 <;> push_cast <;> linarith

/-- `ratBinade` is the binade exponent: `2^(ratBinade q) ≤ q < 2^(ratBinade
q + 1)` for positive `q`. -/
theorem ratBinade_spec (q : ℚ) (h0 : 0 < q) :
    (2 : ℚ) ^ ratBinade q ≤ q ∧ q < (2 : ℚ) ^ (ratBinade q + 1) := by
  by_cases h1 : 1 ≤ q
  · simp only [ratBinade, if_pos h1]
    have hfl : 1 ≤ ⌊q⌋ := by
      rw [Int.le_floor]
      exact_mod_cast h1
    have hm1 : 1 ≤ ⌊q⌋.toNat := by omega
    obtain ⟨ha, hb⟩ := natLog2_spec ⌊q⌋.toNat hm1
    have hcastm : ((⌊q⌋.toNat : ℤ) : ℚ) = (⌊q⌋ : ℚ) := by
      rw [Int.toNat_of_nonneg (by omega)]
    constructor
    · rw [zpow_natCast]
      calc (2 : ℚ) ^ natLog2 ⌊q⌋.toNat
          ≤ ((⌊q⌋.toNat : ℤ) : ℚ) := by exact_mod_cast ha
        _ = (⌊q⌋ : ℚ) := hcastm
        _ ≤ q := Int.floor_le q
    · have hb' : (⌊q⌋.toNat : ℤ) + 1 ≤ 2 ^ (natLog2 ⌊q⌋.toNat + 1) := by
        exact_mod_cast hb
      have : ((natLog2 ⌊q⌋.toNat : ℤ) + 1) = ((natLog2 ⌊q⌋.toNat + 1 : ℕ) : ℤ) := by
        push_cast
        ring
      rw [this, zpow_natCast]
      calc q < (⌊q⌋ : ℚ) + 1 := Int.lt_floor_add_one q
        _ = ((⌊q⌋.toNat : ℤ) : ℚ) + 1 := by rw [hcastm]
        _ ≤ (2 : ℚ) ^ (natLog2 ⌊q⌋.toNat + 1) := by exact_mod_cast hb'
  · simp only [ratBinade, if_neg h1]
    have hq1 : q < 1 := not_le.mp h1
    have hinv : 1 < 1 / q := one_lt_one_div h0 hq1
    have hfl : 1 ≤ ⌊1 / q⌋ := by
      rw [Int.le_floor]
      exact_mod_cast le_of_lt hinv
    have hm1 : 1 ≤ ⌊1 / q⌋.toNat := by omega
    obtain ⟨ha, hb⟩ := natLog2_spec ⌊1 / q⌋.toNat hm1
    have hcastm : ((⌊1 / q⌋.toNat : ℤ) : ℚ) = (⌊1 / q⌋ : ℚ) := by
      rw [Int.toNat_of_nonneg (by omega)]
    have hup : 1 / q < (2 : ℚ) ^ (natLog2 ⌊1 / q⌋.toNat + 1) := by
      have hb' : (⌊1 / q⌋.toNat : ℤ) + 1 ≤ 2 ^ (natLog2 ⌊1 / q⌋.toNat + 1) := by
        exact_mod_cast hb
      calc 1 / q < (⌊1 / q⌋ : ℚ) + 1 := Int.lt_floor_add_one _
        _ = ((⌊1 / q⌋.toNat : ℤ) : ℚ) + 1 := by rw [hcastm]
        _ ≤ (2 : ℚ) ^ (natLog2 ⌊1 / q⌋.toNat + 1) := by exact_mod_cast hb'
    have hlow : (2 : ℚ) ^ natLog2 ⌊1 / q⌋.toNat ≤ 1 / q := by
      calc (2 : ℚ) ^ natLog2 ⌊1 / q⌋.toNat
          ≤ ((⌊1 / q⌋.toNat : ℤ) : ℚ) := by exact_mod_cast ha
        _ = (⌊1 / q⌋ : ℚ) := hcastm
        _ ≤ 1 / q := Int.floor_le _
    have hq_le : q ≤ (2 : ℚ) ^ (-(natLog2 ⌊1 / q⌋.toNat : ℤ)) := by
      rw [zpow_neg, zpow_natCast]
      rw [le_inv_comm₀ h0 (by positivity)]
      rw [← one_div]
      exact hlow
    have hq_gt : (2 : ℚ) ^ (-(natLog2 ⌊1 / q⌋.toNat : ℤ) - 1) < q := by
      have h2 : (2 : ℚ) ^ (-(natLog2 ⌊1 / q⌋.toNat : ℤ) - 1) =
          ((2 : ℚ) ^ (natLog2 ⌊1 / q⌋.toNat + 1))⁻¹ := by
        rw [← zpow_natCast (2 : ℚ) (natLog2 ⌊1 / q⌋.toNat + 1), ← zpow_neg]
        congr 1
        push_cast
        ring
      rw [h2, inv_lt_comm₀ (by positivity) h0, ← one_div]
      exact hup
    split_ifs with hc
    · refine ⟨hc, ?_⟩
      calc q ≤ (2 : ℚ) ^ (-(natLog2 ⌊1 / q⌋.toNat : ℤ)) := hq_le
        _ < (2 : ℚ) ^ (-(natLog2 ⌊1 / q⌋.toNat : ℤ) + 1) := by
          apply zpow_lt_zpow_right₀ (by norm_num)
          omega
    · refine ⟨le_of_lt hq_gt, ?_⟩
      have heq : (-(natLog2 ⌊1 / q⌋.toNat : ℤ) - 1 + 1) = -(natLog2 ⌊1 / q⌋.toNat : ℤ) := by
        ring
      rw [heq]
      exact not_le.mp hc

/-- Values below `2^9` live in binades of exponent at most 8. -/
theorem ratBinade_le_eight (q : ℚ) (h0 : 0 < q) (h9 : q < 512) :
    ratBinade q ≤ 8 := by
  by_contra hc
  push_neg at hc
  have h1 : (2 : ℚ) ^ (9 : ℤ) ≤ (2 : ℚ) ^ ratBinade q :=
    zpow_le_zpow_right₀ (by norm_num) (by omega)
  have h2 := (ratBinade_spec q h0).1
  have h3 : ((2 : ℚ) ^ (9 : ℤ)) = 512 := by norm_num
  linarith

/-- `fl64` rounds within a half-ulp; for magnitudes below `2^9` the error is
at most `2^-45`. -/
theorem fl64_bounds (q : ℚ) (h0 : 0 < q) (h9 : q < 512) :
    q - 1/2^45 ≤ fl64 q ∧ fl64 q ≤ q + 1/2^45 := by
  have hk8 : ratBinade q ≤ 8 := ratBinade_le_eight q h0 h9
  unfold fl64
  rw [if_neg (ne_of_gt h0), if_pos h0]
  unfold fl64Pos
  have h1 := le_roundHalfEven (q * 2 ^ (52 - ratBinade q))
  have h2 := roundHalfEven_le (q * 2 ^ (52 - ratBinade q))
  have hpow : (0 : ℚ) < (2 : ℚ) ^ (ratBinade q - 52) := zpow_pos (by norm_num) _
  have hmul : (2 : ℚ) ^ (52 - ratBinade q) * (2 : ℚ) ^ (ratBinade q - 52) = 1 := by
    rw [← zpow_add₀ (two_ne_zero)]
    norm_num
  have herr : (1/2) * (2 : ℚ) ^ (ratBinade q - 52) ≤ 1/2^45 := by
    have he1 : (1/2 : ℚ) * (2 : ℚ) ^ (ratBinade q - 52) =
        (2 : ℚ) ^ (ratBinade q - 53) := by
      have : (1/2 : ℚ) = (2 : ℚ) ^ (-1 : ℤ) := by norm_num
      rw [this, ← zpow_add₀ (two_ne_zero)]
      congr 1
      ring
    have he2 : (2 : ℚ) ^ (ratBinade q - 53) ≤ (2 : ℚ) ^ (-45 : ℤ) :=
      zpow_le_zpow_right₀ (by norm_num) (by omega)
    have he3 : ((2 : ℚ) ^ (-45 : ℤ)) = 1/2^45 := by
      rw [zpow_neg]
      norm_num
    rw [he1]
    rw [he3] at he2
    exact he2
  constructor
  · have := mul_le_mul_of_nonneg_right h1 (le_of_lt hpow)
    calc q - 1/2^45
        ≤ q - (1/2) * (2 : ℚ) ^ (ratBinade q - 52) := by linarith
      _ = (q * (2 : ℚ) ^ (52 - ratBinade q) - 1/2) * (2 : ℚ) ^ (ratBinade q - 52) := by
          rw [sub_mul, mul_assoc, hmul, mul_one]
      _ ≤ (roundHalfEven (q * 2 ^ (52 - ratBinade q)) : ℚ) * 2 ^ (ratBinade q - 52) :=
          this
  · have := mul_le_mul_of_nonneg_right h2 (le_of_lt hpow)
    calc (roundHalfEven (q * 2 ^ (52 - ratBinade q)) : ℚ) * 2 ^ (ratBinade q - 52)
        ≤ (q * (2 : ℚ) ^ (52 - ratBinade q) + 1/2) * (2 : ℚ) ^ (ratBinade q - 52) :=
          this
      _ = q + (1/2) * (2 : ℚ) ^ (ratBinade q - 52) := by
          rw [add_mul, mul_assoc, hmul, mul_one]
      _ ≤ q + 1/2^45 := by linarith

/-- Evaluation helper for `fl64` at positive inputs, given the binade
exponent and the rounded mantissa. -/
theorem fl64_eval (q : ℚ) (k m : ℤ) (h0 : 0 < q) (hbin : ratBinade q = k)
    (hm : roundHalfEven (q * 2 ^ ((52 : ℤ) - k)) = m) :
    fl64 q = (m : ℚ) * 2 ^ (k - (52 : ℤ)) := by
  unfold fl64 fl64Pos
  rw [if_neg (ne_of_gt h0), if_pos h0, hbin]
  show ((roundHalfEven (q * 2 ^ ((52 : ℤ) - k)) : ℚ)) * 2 ^ (k - (52 : ℤ)) = _
  rw [hm]

/-- `roundHalfEven` evaluation when the fraction is below one half. -/
theorem roundHalfEven_eval_down (q : ℚ) (f : ℤ) (hl : (f : ℚ) ≤ q)
    (hu : q < (f : ℚ) + 1/2) : roundHalfEven q = f := by
  have hfl : ⌊q⌋ = f := Int.floor_eq_iff.mpr ⟨hl, by linarith⟩
  simp only [roundHalfEven, hfl]
  rw [if_pos (by linarith)]

/-- `roundHalfEven` evaluation when the fraction is above one half. -/
theorem roundHalfEven_eval_up (q : ℚ) (f : ℤ) (hl : (f : ℚ) + 1/2 < q)
    (hu : q < (f : ℚ) + 1) : roundHalfEven q = f + 1 := by
  have hfl : ⌊q⌋ = f := Int.floor_eq_iff.mpr ⟨by linarith, hu⟩
  simp only [roundHalfEven, hfl]
  rw [if_neg (by linarith), if_pos (by linarith)]

/-- Binades are disjoint, so `ratBinade` is determined by any enclosing
binade. -/
theorem ratBinade_eq_of (q : ℚ) (k : ℤ) (h0 : 0 < q)
    (hl : (2 : ℚ) ^ k ≤ q) (hu : q < (2 : ℚ) ^ (k + 1)) : ratBinade q = k := by
  have hs := ratBinade_spec q h0
  by_contra hne
  rcases lt_or_gt_of_ne hne with h | h
  · have hle : (2 : ℚ) ^ (ratBinade q + 1) ≤ (2 : ℚ) ^ k :=
      zpow_le_zpow_right₀ (by norm_num) (by omega)
    linarith [hs.2]
  · have hle : (2 : ℚ) ^ (k + 1) ≤ (2 : ℚ) ^ ratBinade q :=
      zpow_le_zpow_right₀ (by norm_num) (by omega)
    linarith [hs.1]

/-- The double nearest `0.5/100`: it lies a hair *above* `1/200`. -/
theorem fl64_half_percent :
    fl64 (1/200) = 5764607523034235/1152921504606846976 := by
  have hb : ratBinade (1/200 : ℚ) = -8 :=
    ratBinade_eq_of _ _ (by norm_num) (by norm_num) (by norm_num)
  have hm : roundHalfEven ((1/200 : ℚ) * 2 ^ ((52 : ℤ) - (-8))) =
      5764607523034235 := by
    apply roundHalfEven_eval_up _ 5764607523034234 <;> norm_num
  rw [fl64_eval (1/200) (-8) 5764607523034235 (by norm_num) hb hm]
  norm_num

/-- The double nearest `1 + fl64(0.5/100)`: it rounds back *below* `1.005`. -/
theorem fl64_one_plus_half_percent :
    fl64 (1158686112129881211/1152921504606846976) =
      4526117625507348/4503599627370496 := by
  have hb : ratBinade (1158686112129881211/1152921504606846976 : ℚ) = 0 :=
    ratBinade_eq_of _ _ (by norm_num) (by norm_num) (by norm_num)
  have hm : roundHalfEven ((1158686112129881211/1152921504606846976 : ℚ) *
      2 ^ ((52 : ℤ) - 0)) = 4526117625507348 := by
    apply roundHalfEven_eval_down _ 4526117625507348 <;> norm_num
  rw [fl64_eval _ 0 4526117625507348 (by norm_num) hb hm]
  norm_num

/-- The double nearest `100 × fl64(1 + fl64(0.5/100))`: it stays strictly
below `100.5`, which is what makes `Math.round` return `100`. -/
theorem fl64_hundred_times_adjustment :
    fl64 (452611762550734800/4503599627370496) =
      7072058789855231/70368744177664 := by
  have hb : ratBinade (452611762550734800/4503599627370496 : ℚ) = 6 :=
    ratBinade_eq_of _ _ (by norm_num) (by norm_num) (by norm_num)
  have hm : roundHalfEven ((452611762550734800/4503599627370496 : ℚ) *
      2 ^ ((52 : ℤ) - 6)) = 7072058789855231 := by
    apply roundHalfEven_eval_down _ 7072058789855231 <;> norm_num
  rw [fl64_eval _ 6 7072058789855231 (by norm_num) hb hm]
  norm_num

/-- If the percentage margin `n·p/100` clears `1/2` with room for the three
double roundings of the fallback (`2^-45` each, amplified by `n`), then the
fallback numerator `Math.round(n × fl64(1 + fl64(p/100)))` strictly exceeds
`n`. -/
theorem fallback_gt_of_margin (p : ℚ) (n : ℕ) (hp0 : 0 < p) (hp : p ≤ 15)
    (hn0 : 0 < n)
    (hrange : (n : ℚ) * (1 + p/100 + 2/2^45) < 512)
    (hmargin : 1/2 + (2*(n : ℚ)+1)/2^45 ≤ (n : ℚ) * (p/100)) :
    (n : ℤ) < jsRound (fl64 ((n : ℚ) * fl64 (1 + fl64 (p / 100)))) := by
  have hnq : (0 : ℚ) < (n : ℚ) := by exact_mod_cast hn0
  have hnn : (0 : ℚ) ≤ (n : ℚ) := le_of_lt hnq
  have h1 := fl64_bounds (p/100) (by positivity) (by linarith)
  have h2 := fl64_bounds (1 + fl64 (p/100)) (by linarith [h1.1]) (by linarith [h1.2])
  have hA1 : 1 + p/100 - 2/2^45 ≤ fl64 (1 + fl64 (p/100)) := by linarith [h1.1, h2.1]
  have hA2 : fl64 (1 + fl64 (p/100)) ≤ 1 + p/100 + 2/2^45 := by linarith [h1.2, h2.2]
  have hApos : (0 : ℚ) < fl64 (1 + fl64 (p/100)) := by linarith
  have hprodpos : 0 < (n : ℚ) * fl64 (1 + fl64 (p/100)) := mul_pos hnq hApos
  have hprodle : (n : ℚ) * fl64 (1 + fl64 (p/100)) ≤ (n : ℚ) * (1 + p/100 + 2/2^45) :=
    mul_le_mul_of_nonneg_left hA2 hnn
  have h3 := fl64_bounds ((n : ℚ) * fl64 (1 + fl64 (p/100))) hprodpos (by linarith)
  have hlow : (n : ℚ) * (1 + p/100 - 2/2^45) ≤ (n : ℚ) * fl64 (1 + fl64 (p/100)) :=
    mul_le_mul_of_nonneg_left hA1 hnn
  have hexp : (n : ℚ) * (1 + p/100 - 2/2^45) =
      (n : ℚ) + (n : ℚ) * (p/100) - 2 * ((n : ℚ)/2^45) := by ring
  have hm2 : (2*(n : ℚ)+1)/2^45 = 2 * ((n : ℚ)/2^45) + 1/2^45 := by ring
  have hF : (n : ℚ) + 1/2 ≤ fl64 ((n : ℚ) * fl64 (1 + fl64 (p/100))) := by
    rw [hexp] at hlow
    rw [hm2] at hmargin
    linarith [h3.1]
  have hfloor : ((n : ℤ) + 1 : ℤ) ≤ ⌊fl64 ((n : ℚ) * fl64 (1 + fl64 (p/100))) + 1/2⌋ := by
    rw [Int.le_floor]
    push_cast
    linarith
  unfold jsRound
  omega

/-- At every difficulty, the exhaustion fallback strictly increases the
numerator — except at difficulty 5 with numerator exactly 100, which is
excluded by hypothesis (and genuinely fails: `fl64` rounds
`100 × (1 + 0.5/100)` just below `100.5`). -/
theorem fallbackNum_gt (d : Difficulty) (n : ℕ)
    (hlo : (ratioConfig d).numLo ≤ n) (hhi : n ≤ (ratioConfig d).numHi)
    (h100 : d = Difficulty.d5 → n ≠ 100) :
    (n : ℤ) < jsRound (fl64 ((n : ℚ) *
      fl64 (1 + fl64 ((ratioConfig d).minDiffPercent / 100)))) := by
  cases d with
  | d1 =>
    have hmdp : (ratioConfig Difficulty.d1).minDiffPercent = 15 := by
      norm_num [ratioConfig, RatioConfig.minDiffPercent]
    rw [hmdp]
    have hlo' : 10 ≤ n := hlo
    have hhi' : n ≤ 50 := hhi
    have hloq : (10 : ℚ) ≤ (n : ℚ) := by exact_mod_cast hlo'
    have hhiq : (n : ℚ) ≤ 50 := by exact_mod_cast hhi'
    apply fallback_gt_of_margin 15 n (by norm_num) (by norm_num) (by omega)
    · calc (n : ℚ) * (1 + 15/100 + 2/2^45)
          ≤ 50 * (1 + 15/100 + 2/2^45) :=
            mul_le_mul_of_nonneg_right hhiq (by norm_num)
        _ < 512 := by norm_num
    · have hm := mul_le_mul_of_nonneg_right hloq (by norm_num : (0:ℚ) ≤ 15/100)
      linarith
  | d2 =>
    have hmdp : (ratioConfig Difficulty.d2).minDiffPercent = 8 := by
      norm_num [ratioConfig, RatioConfig.minDiffPercent]
    rw [hmdp]
    have hlo' : 15 ≤ n := hlo
    have hhi' : n ≤ 80 := hhi
    have hloq : (15 : ℚ) ≤ (n : ℚ) := by exact_mod_cast hlo'
    have hhiq : (n : ℚ) ≤ 80 := by exact_mod_cast hhi'
    apply fallback_gt_of_margin 8 n (by norm_num) (by norm_num) (by omega)
    · calc (n : ℚ) * (1 + 8/100 + 2/2^45)
          ≤ 80 * (1 + 8/100 + 2/2^45) :=
            mul_le_mul_of_nonneg_right hhiq (by norm_num)
        _ < 512 := by norm_num
    · have hm := mul_le_mul_of_nonneg_right hloq (by norm_num : (0:ℚ) ≤ 8/100)
      linarith
  | d3 =>
    have hmdp : (ratioConfig Difficulty.d3).minDiffPercent = 4 := by
      norm_num [ratioConfig, RatioConfig.minDiffPercent]
    rw [hmdp]
    have hlo' : 20 ≤ n := hlo
    have hhi' : n ≤ 120 := hhi
    have hloq : (20 : ℚ) ≤ (n : ℚ) := by exact_mod_cast hlo'
    have hhiq : (n : ℚ) ≤ 120 := by exact_mod_cast hhi'
    apply fallback_gt_of_margin 4 n (by norm_num) (by norm_num) (by omega)
    · calc (n : ℚ) * (1 + 4/100 + 2/2^45)
          ≤ 120 * (1 + 4/100 + 2/2^45) :=
            mul_le_mul_of_nonneg_right hhiq (by norm_num)
        _ < 512 := by norm_num
    · have hm := mul_le_mul_of_nonneg_right hloq (by norm_num : (0:ℚ) ≤ 4/100)
      linarith
  | d4 =>
    have hmdp : (ratioConfig Difficulty.d4).minDiffPercent = 2 := by
      norm_num [ratioConfig, RatioConfig.minDiffPercent]
    rw [hmdp]
    have hlo' : 50 ≤ n := hlo
    have hhi' : n ≤ 200 := hhi
    have hloq : (50 : ℚ) ≤ (n : ℚ) := by exact_mod_cast hlo'
    have hhiq : (n : ℚ) ≤ 200 := by exact_mod_cast hhi'
    apply fallback_gt_of_margin 2 n (by norm_num) (by norm_num) (by omega)
    · calc (n : ℚ) * (1 + 2/100 + 2/2^45)
          ≤ 200 * (1 + 2/100 + 2/2^45) :=
            mul_le_mul_of_nonneg_right hhiq (by norm_num)
        _ < 512 := by norm_num
    · have hm := mul_le_mul_of_nonneg_right hloq (by norm_num : (0:ℚ) ≤ 2/100)
      linarith
  | d5 =>
    have hmdp : (ratioConfig Difficulty.d5).minDiffPercent = 1/2 := by
      norm_num [ratioConfig, RatioConfig.minDiffPercent]
    rw [hmdp]
    have hlo' : 100 ≤ n := hlo
    have hhi' : n ≤ 300 := hhi
    have hne : n ≠ 100 := h100 rfl
    have hlo'' : 101 ≤ n := by omega
    have hloq : (101 : ℚ) ≤ (n : ℚ) := by exact_mod_cast hlo''
    have hhiq : (n : ℚ) ≤ 300 := by exact_mod_cast hhi'
    apply fallback_gt_of_margin (1/2) n (by norm_num) (by norm_num) (by omega)
    · calc (n : ℚ) * (1 + (1/2)/100 + 2/2^45)
          ≤ 300 * (1 + (1/2)/100 + 2/2^45) :=
            mul_le_mul_of_nonneg_right hhiq (by norm_num)
        _ < 512 := by norm_num
    · have hm := mul_le_mul_of_nonneg_right hloq (by norm_num : (0:ℚ) ≤ (1/2)/100)
      linarith

/-- `ratioFinalize` on a pair with distinct values keeps the values distinct
(the swap only exchanges positions) and picks `correctAnswer` as the strictly
larger side. -/
theorem ratioFinalize_spec (d : Difficulty) (pair : Ratio × Ratio)
    (swapCoin : Bool) (hne : pair.1.value ≠ pair.2.value) :
    (ratioFinalize d pair swapCoin).ratioA.value ≠
      (ratioFinalize d pair swapCoin).ratioB.value ∧
    ((ratioFinalize d pair swapCoin).correctAnswer = RatioAnswer.A ↔
      (ratioFinalize d pair swapCoin).ratioB.value <
        (ratioFinalize d pair swapCoin).ratioA.value) ∧
    ((ratioFinalize d pair swapCoin).correctAnswer = RatioAnswer.B ↔
      (ratioFinalize d pair swapCoin).ratioA.value <
        (ratioFinalize d pair swapCoin).ratioB.value) := by
  cases swapCoin
  · simp only [ratioFinalize, if_false, Bool.false_eq_true]
    rcases lt_trichotomy pair.1.value pair.2.value with h | h | h
    · rw [if_neg (by exact not_lt.mpr (le_of_lt h))]
      refine ⟨hne, ?_, ?_⟩ <;> simp [h, lt_asymm h]
    · exact absurd h hne
    · rw [if_pos h]
      refine ⟨hne, ?_, ?_⟩ <;> simp [h, lt_asymm h]
  · simp only [ratioFinalize, if_true]
    rcases lt_trichotomy pair.2.value pair.1.value with h | h | h
    · rw [if_neg (by exact not_lt.mpr (le_of_lt h))]
      refine ⟨fun he => hne he.symm, ?_, ?_⟩ <;> simp [h, lt_asymm h]
    · exact absurd h.symm hne
    · rw [if_pos h]
      refine ⟨fun he => hne he.symm, ?_, ?_⟩ <;> simp [h, lt_asymm h]

/-- `correctAnswer = "A"` exactly when the displayed ratio A is strictly
larger — unconditionally: on a tie the `? "A" : "B"` conditional falls
through to `"B"`, so `"A"` still characterizes strictness. -/
theorem ratioFinalize_A_iff (d : Difficulty) (pair : Ratio × Ratio)
    (sc : Bool) :
    (ratioFinalize d pair sc).correctAnswer = RatioAnswer.A ↔
      (ratioFinalize d pair sc).ratioB.value <
        (ratioFinalize d pair sc).ratioA.value := by
  cases sc
  · simp only [ratioFinalize, if_false, Bool.false_eq_true]
    by_cases h : pair.2.value < pair.1.value
    · rw [if_pos h]; simp [h]
    · rw [if_neg h]; simp [h]
  · simp only [ratioFinalize, if_true]
    by_cases h : pair.1.value < pair.2.value
    · rw [if_pos h]; simp [h]
    · rw [if_neg h]; simp [h]

/-- The draws `tieStream` feeds to attempt `i` of the ratio loop. -/
theorem tieStream_evals (i : ℕ) :
    tieStream (8*i) = 0 ∧ tieStream (8*i+1) = 230 ∧ tieStream (8*i+2) = 15 ∧
    tieStream (8*i+3) = 0 ∧ tieStream (8*i+4) = 0 ∧ tieStream (8*i+5) = 0 := by
  have h0 : (8*i) % 8 = 0 := by omega
  have h1 : (8*i+1) % 8 = 1 := by omega
  have h2 : (8*i+2) % 8 = 2 := by omega
  have h3 : (8*i+3) % 8 = 3 := by omega
  have h4 : (8*i+4) % 8 = 4 := by omega
  have h5 : (8*i+5) % 8 = 5 := by omega
  refine ⟨?_, ?_, ?_, ?_, ?_, ?_⟩ <;>
    simp [tieStream, h0, h1, h2, h3, h4, h5]

/-- Under the tie stream's draws, every attempt at difficulty 5 produces the
pair `100/350` vs `37/120` (target offset +2.0 points over base 200/7 %,
derived numerator `Math.round(214/7/100 × 120) = 37`). -/
theorem tieAttempt_eval :
    ratioAttempt Difficulty.d5 0 230 15 0 0 0 true =
      (createRatio 100 350, createRatio 37 120) := by
  have h1 : randomInt 100 300 0 = 100 := by decide
  have h2 : randomInt 120 350 230 = 350 := by decide
  have h3 : randomInt 5 20 15 = 20 := by decide
  have h4 : randomInt 120 350 0 = 120 := by decide
  have hj : jsRound ((1284 : ℚ) / 35) = 37 := by
    unfold jsRound
    exact Int.floor_eq_iff.mpr (by norm_num)
  simp only [ratioAttempt, ratioConfig, Difficulty.toNat, h1, h2, h3, h4]
  norm_num
  rw [hj]
  norm_num

/-- The tie stream's pair is rejected: its percentage difference is
`95/12 ≈ 7.9%`, above difficulty 5's 2% band. -/
theorem tieAttempt_bad :
    ratioBad Difficulty.d5 (createRatio 100 350) (createRatio 37 120) = true := by
  have v1 : (createRatio 100 350).value = 2/7 := by
    rw [createRatio_value]; norm_num
  have v2 : (createRatio 37 120).value = 37/120 := by
    rw [createRatio_value]; norm_num
  have hdiff : getPercentageDifference (createRatio 100 350) (createRatio 37 120) =
      95/12 := by
    unfold getPercentageDifference
    rw [v1, v2, max_eq_right (by norm_num), min_eq_left (by norm_num)]
    norm_num
  simp only [ratioBad, hdiff]
  rw [decide_eq_true (show (ratioConfig Difficulty.d5).maxDiffPercent < 95/12 by
    norm_num [ratioConfig, RatioConfig.maxDiffPercent])]
  simp

/-- Under the tie stream, the ratio loop rejects every attempt and exhausts
its budget with `ratioA = 100/350`. -/
theorem tieLoop_eval : ∀ t i,
    ratioLoopGo Difficulty.d5 tieStream tieCoins i t =
      (createRatio 100 350, createRatio 37 120, i + 1 + t) := by
  intro t
  induction t with
  | zero =>
    intro i
    obtain ⟨e0, e1, e2, e3, e4, e5⟩ := tieStream_evals i
    simp only [ratioLoopGo, e0, e1, e2, e3, e4, e5, tieCoins, tieAttempt_eval,
      Nat.add_zero]
  | succ t ih =>
    intro i
    obtain ⟨e0, e1, e2, e3, e4, e5⟩ := tieStream_evals i
    simp only [ratioLoopGo, e0, e1, e2, e3, e4, e5, tieCoins, tieAttempt_eval]
    rw [if_pos tieAttempt_bad, ih (i + 1)]
    have harith : i + 1 + 1 + t = i + 1 + (t + 1) := by omega
    rw [harith]

/-- **C6, counterexample.**  A reachable tie: at difficulty 5, a stream that
draws `ratioA = 100/350` and a rejected partner on all 100 attempts reaches
the exhaustion fallback with numerator 100, and in IEEE doubles
`Math.round(100 × (1 + 0.5/100)) = Math.round(100.49999999999999) = 100` —
ratio B equals ratio A, `ratioA.value = ratioB.value`, and the tie is
reported as answer `"B"`. -/
theorem C6_counterexample_fallback_tie :
    (generateRatioComparison Difficulty.d5 tieStream tieCoins false).ratioA.value =
      (generateRatioComparison Difficulty.d5 tieStream tieCoins false).ratioB.value ∧
    (generateRatioComparison Difficulty.d5 tieStream tieCoins false).correctAnswer =
      RatioAnswer.B := by
  have hloop : ratioLoopGo Difficulty.d5 tieStream tieCoins 0 99 =
      (createRatio 100 350, createRatio 37 120, 100) := tieLoop_eval 99 0
  have hnum : jsRound (fl64 ((((100 : ℤ) : ℚ)) *
      fl64 (1 + fl64 ((ratioConfig Difficulty.d5).minDiffPercent / 100)))) = 100 := by
    have hmdp : (ratioConfig Difficulty.d5).minDiffPercent / 100 = 1/200 := by
      norm_num [ratioConfig, RatioConfig.minDiffPercent]
    rw [hmdp, fl64_half_percent]
    have hq2 : (1 : ℚ) + 5764607523034235/1152921504606846976 =
        1158686112129881211/1152921504606846976 := by norm_num
    rw [hq2, fl64_one_plus_half_percent]
    have hq3 : (((100 : ℤ) : ℚ)) * (4526117625507348/4503599627370496) =
        452611762550734800/4503599627370496 := by norm_num
    rw [hq3, fl64_hundred_times_adjustment]
    unfold jsRound
    exact Int.floor_eq_iff.mpr (by norm_num)
  have hgen : generateRatioComparison Difficulty.d5 tieStream tieCoins false =
      ratioFinalize Difficulty.d5 (createRatio 100 350, createRatio 100 350)
        false := by
    simp only [generateRatioComparison, hloop]
    rw [if_pos (le_refl 100)]
    simp only [createRatio_numerator, createRatio_denominator]
    rw [hnum]
  rw [hgen]
  constructor
  · simp only [ratioFinalize, if_false, Bool.false_eq_true]
  · simp only [ratioFinalize, if_false, Bool.false_eq_true]
    rw [if_neg (lt_irrefl (createRatio 100 350).value)]

/-- **C6.**  For every problem returned by `generateRatioComparison`,
`correctAnswer = "A"` exactly when `ratioA.value > ratioB.value`.  Ties never
occur — and `correctAnswer = "B"` exactly when `ratioB.value >
ratioA.value` — provided the run is not an exhaustion fallback at difficulty
5 with final sampled numerator 100; that excluded case is reachable and ties
(`Math.round(100 × (1 + 0.5/100)) = 100` in doubles), with the tie reported
as `"B"`. -/
theorem C6_ratio_ties_characterized :
    (∀ (d : Difficulty) (ρ : ℕ → ℕ) (σ : ℕ → Bool) (sc : Bool),
      ((generateRatioComparison d ρ σ sc).correctAnswer = RatioAnswer.A ↔
        (generateRatioComparison d ρ σ sc).ratioB.value <
          (generateRatioComparison d ρ σ sc).ratioA.value)) ∧
    (∀ (d : Difficulty) (ρ : ℕ → ℕ) (σ : ℕ → Bool) (sc : Bool),
      (d = Difficulty.d5 → 100 ≤ (ratioLoopGo d ρ σ 0 99).2.2 →
        (ratioLoopGo d ρ σ 0 99).1.numerator ≠ 100) →
      (generateRatioComparison d ρ σ sc).ratioA.value ≠
        (generateRatioComparison d ρ σ sc).ratioB.value ∧
      ((generateRatioComparison d ρ σ sc).correctAnswer = RatioAnswer.B ↔
        (generateRatioComparison d ρ σ sc).ratioA.value <
          (generateRatioComparison d ρ σ sc).ratioB.value)) := by
  constructor
  · intro d ρ σ sc
    exact ratioFinalize_A_iff d _ sc
  · intro d ρ σ sc hnum
    simp only [generateRatioComparison]
    by_cases hex : 100 ≤ (ratioLoopGo d ρ σ 0 99).2.2
    · rw [if_pos hex]
      obtain ⟨ra, rb, hfst⟩ := ratioLoopGo_fst d ρ σ 99 0
      rw [hfst]
      simp only [createRatio_numerator, createRatio_denominator, Int.cast_natCast]
      set n := randomInt (ratioConfig d).numLo (ratioConfig d).numHi ra with hn
      set dn := randomInt (ratioConfig d).denLo (ratioConfig d).denHi rb with hdn
      have hden : (0 : ℤ) < ((dn : ℕ) : ℤ) := by
        have hd1 := (ratioConfig_ranges d).2
        have hd2 : (ratioConfig d).denLo ≤ dn := le_randomInt _ _ _
        exact_mod_cast lt_of_lt_of_le hd1 hd2
      have hn100 : d = Difficulty.d5 → n ≠ 100 := by
        intro hd
        have hh := hnum hd hex
        rw [hfst, createRatio_numerator] at hh
        exact fun hc => hh (by exact_mod_cast hc)
      have hgt := fallbackNum_gt d n
        (le_randomInt _ _ _) (randomInt_le _ _ _ (ratioConfig_ranges d).1) hn100
      have hne : (createRatio (n : ℤ) (dn : ℤ)).value ≠
          (createRatio (jsRound (fl64 ((n : ℚ) *
            fl64 (1 + fl64 ((ratioConfig d).minDiffPercent / 100)))))
            (dn : ℤ)).value :=
        ne_of_lt (createRatio_value_lt _ _ _ hden hgt)
      have hfin := ratioFinalize_spec d (createRatio (n : ℤ) (dn : ℤ),
        createRatio (jsRound (fl64 ((n : ℚ) *
          fl64 (1 + fl64 ((ratioConfig d).minDiffPercent / 100)))))
          (dn : ℤ)) sc hne
      exact ⟨hfin.1, hfin.2.2⟩
    · rw [if_neg hex]
      have hbadf : ratioBad d (ratioLoopGo d ρ σ 0 99).1
          (ratioLoopGo d ρ σ 0 99).2.1 = false := by
        cases hb : ratioBad d (ratioLoopGo d ρ σ 0 99).1
            (ratioLoopGo d ρ σ 0 99).2.1 with
        | false => rfl
        | true =>
          have h100 := ratioLoopGo_bad_exhaust d ρ σ 99 0 hb
          omega
      have hne := ratioBad_false_ne d _ _ hbadf
      have hfin := ratioFinalize_spec d
        ((ratioLoopGo d ρ σ 0 99).1, (ratioLoopGo d ρ σ 0 99).2.1) sc hne
      exact ⟨hfin.1, hfin.2.2⟩

/-- The no-tie half of C6 instantiated at difficulty 1 (where the side
condition is vacuous) on concrete streams. -/
theorem C6_witness :
    (generateRatioComparison Difficulty.d1 (fun _ => 0) (fun _ => true)
        false).ratioA.value ≠
      (generateRatioComparison Difficulty.d1 (fun _ => 0) (fun _ => true)
        false).ratioB.value ∧
    ((generateRatioComparison Difficulty.d1 (fun _ => 0) (fun _ => true)
        false).correctAnswer = RatioAnswer.B ↔
      (generateRatioComparison Difficulty.d1 (fun _ => 0) (fun _ => true)
        false).ratioA.value <
        (generateRatioComparison Difficulty.d1 (fun _ => 0) (fun _ => true)
          false).ratioB.value) :=
  C6_ratio_ties_characterized.2 Difficulty.d1 (fun _ => 0) (fun _ => true) false
    (fun h => Difficulty.noConfusion h)

/-- The dividend rejection loop only reads draws at positions `i .. i + t`. -/
theorem dividendLoop_congr (lo hi divisor : ℕ) (φ φ' : ℕ → ℕ) (t : ℕ) :
    ∀ i, (∀ j, i ≤ j → j ≤ i + t → φ j = φ' j) →
      dividendLoop lo hi divisor φ i t = dividendLoop lo hi divisor φ' i t := by
  induction t with
  | zero =>
    intro i h
    simp only [dividendLoop]
    rw [h i le_rfl (by omega)]
  | succ t ih =>
    intro i h
    simp only [dividendLoop]
    rw [h i le_rfl (by omega)]
    by_cases hdiv : randomInt lo hi (φ' i) % divisor = 0
    · rw [if_pos hdiv, if_pos hdiv]
      exact ih (i + 1) (fun j h1 h2 => h j (by omega) (by omega))
    · rw [if_neg hdiv, if_neg hdiv]

/-- `generateRemainderProblem` only reads the first 52 draws of its stream:
its rejection loop is capped at 50 attempts. -/
theorem generateRemainderProblem_congr (d : Difficulty) (ρ ρ' : ℕ → ℕ)
    (h : ∀ j, j ≤ 51 → ρ j = ρ' j) :
    generateRemainderProblem d ρ = generateRemainderProblem d ρ' := by
  have h0 : ρ 0 = ρ' 0 := h 0 (by omega)
  have h51 : ρ 51 = ρ' 51 := h 51 le_rfl
  have hloop : ∀ divisor, dividendLoop (divisibilityRanges d).dividendMin
      (divisibilityRanges d).dividendMax divisor (fun i => ρ (1 + i)) 0 49 =
      dividendLoop (divisibilityRanges d).dividendMin
      (divisibilityRanges d).dividendMax divisor (fun i => ρ' (1 + i)) 0 49 :=
    fun divisor => dividendLoop_congr _ _ divisor _ _ 49 0
      (fun j _ h2 => h (1 + j) (by omega))
  simp only [generateRemainderProblem, h0, h51, hloop]

/-- The ratio rejection loop only reads draws at positions `8*i .. 8*(i+t)+5`
and coins at attempts `i .. i+t`. -/
theorem ratioLoopGo_congr (d : Difficulty) (ρ ρ' : ℕ → ℕ) (σ σ' : ℕ → Bool)
    (t : ℕ) : ∀ i, (∀ j, j ≤ 8 * (i + t) + 5 → ρ j = ρ' j) →
      (∀ j, j ≤ i + t → σ j = σ' j) →
      ratioLoopGo d ρ σ i t = ratioLoopGo d ρ' σ' i t := by
  induction t with
  | zero =>
    intro i h hb
    simp only [ratioLoopGo]
    rw [h (8 * i) (by omega), h (8 * i + 1) (by omega), h (8 * i + 2) (by omega),
      h (8 * i + 3) (by omega), h (8 * i + 4) (by omega), h (8 * i + 5) (by omega),
      hb i (by omega)]
  | succ t ih =>
    intro i h hb
    simp only [ratioLoopGo]
    rw [h (8 * i) (by omega), h (8 * i + 1) (by omega), h (8 * i + 2) (by omega),
      h (8 * i + 3) (by omega), h (8 * i + 4) (by omega), h (8 * i + 5) (by omega),
      hb i (by omega)]
    cases hcond : ratioBad d
      (ratioAttempt d (ρ' (8 * i)) (ρ' (8 * i + 1)) (ρ' (8 * i + 2)) (ρ' (8 * i + 3))
        (ρ' (8 * i + 4)) (ρ' (8 * i + 5)) (σ' i)).1
      (ratioAttempt d (ρ' (8 * i)) (ρ' (8 * i + 1)) (ρ' (8 * i + 2)) (ρ' (8 * i + 3))
        (ρ' (8 * i + 4)) (ρ' (8 * i + 5)) (σ' i)).2
    · simp only [hcond, Bool.false_eq_true, if_false]
    · simp only [hcond, if_true]
      exact ih (i + 1) (fun j hj => h j (by omega)) (fun j hj => hb j (by omega))

/-- C4 (amended): the divisibility engine's rejection loop is capped at 50
attempts (the whole generator reads at most the first 52 raw draws, then
falls back to the deterministic `+ randomInt(1, divisor-1)` adjustment), and
the ratio engine's at 100 attempts (at most the first 798 raw draws and 100
coins, final `attempts ≤ 100`, with the deterministic numerator-scaling
fallback on exhaustion); the percentage engine's loop carries no such bound
(see the counterexample). -/
theorem C4_bounded_retries :
    (∀ (d : Difficulty) (includeExact coin : Bool) (ρ ρ' : ℕ → ℕ),
      (∀ j, j ≤ 51 → ρ j = ρ' j) →
      generateDivisibilityProblem d includeExact coin ρ =
        generateDivisibilityProblem d includeExact coin ρ') ∧
    (∀ (d : Difficulty) (ρ ρ' : ℕ → ℕ) (σ σ' : ℕ → Bool) (swapCoin : Bool),
      (∀ j, j ≤ 797 → ρ j = ρ' j) → (∀ j, j ≤ 99 → σ j = σ' j) →
      generateRatioComparison d ρ σ swapCoin =
        generateRatioComparison d ρ' σ' swapCoin) ∧
    (∀ (d : Difficulty) (ρ : ℕ → ℕ) (σ : ℕ → Bool),
      (ratioLoopGo d ρ σ 0 99).2.2 ≤ 100) := by
  refine ⟨?_, ?_, ?_⟩
  · intro d ie coin ρ ρ' h
    unfold generateDivisibilityProblem
    cases hie : ie && coin
    · simp only [Bool.false_eq_true, if_false]
      exact generateRemainderProblem_congr d ρ ρ' h
    · simp only [if_true]
      rw [h 0 (by omega), h 1 (by omega)]
  · intro d ρ ρ' σ σ' swapCoin h hb
    have hloop : ratioLoopGo d ρ σ 0 99 = ratioLoopGo d ρ' σ' 0 99 :=
      ratioLoopGo_congr d ρ ρ' σ σ' 99 0 (fun j hj => h j (by omega))
        (fun j hj => hb j (by omega))
    simp only [generateRatioComparison, hloop]
  · intro d ρ σ
    exact le_trans (ratioLoopGo_attempts d ρ σ 99 0) (by omega)

theorem C4_witness :
    (∀ j, j ≤ 51 → (fun _ : ℕ => 3) j = (fun j => if j ≤ 51 then 3 else 9) j) ∧
    (∀ j, j ≤ 797 → (fun _ : ℕ => 4) j = (fun j => if j ≤ 797 then 4 else 8) j) ∧
    (∀ j, j ≤ 99 → (fun _ : ℕ => true) j = (fun j => if j ≤ 99 then true else false) j) ∧
    generateDivisibilityProblem Difficulty.d2 true false (fun _ => 3) =
      generateDivisibilityProblem Difficulty.d2 true false
        (fun j => if j ≤ 51 then 3 else 9) ∧
    generateRatioComparison Difficulty.d3 (fun _ => 4) (fun _ => true) false =
      generateRatioComparison Difficulty.d3 (fun j => if j ≤ 797 then 4 else 8)
        (fun j => if j ≤ 99 then true else false) false ∧
    (ratioLoopGo Difficulty.d3 (fun _ => 4) (fun _ => true) 0 99).2.2 ≤ 100 := by
  have h1 : ∀ j, j ≤ 51 → (fun _ : ℕ => 3) j = (fun j => if j ≤ 51 then 3 else 9) j :=
    fun j hj => by simp [hj]
  have h2 : ∀ j, j ≤ 797 → (fun _ : ℕ => 4) j = (fun j => if j ≤ 797 then 4 else 8) j :=
    fun j hj => by simp [hj]
  have h3 : ∀ j, j ≤ 99 →
      (fun _ : ℕ => true) j = (fun j => if j ≤ 99 then true else false) j :=
    fun j hj => by simp [hj]
  exact ⟨h1, h2, h3,
    C4_bounded_retries.1 Difficulty.d2 true false _ _ h1,
    C4_bounded_retries.2.1 Difficulty.d3 _ _ _ _ false h2 h3,
    C4_bounded_retries.2.2 Difficulty.d3 (fun _ => 4) (fun _ => true)⟩
